import Mathlib

/-! Shallow embedding of the pixel-effect engine of the Pixel-ART-FX repository.

The RGBA pixel buffer (a `Uint8ClampedArray`) is modelled as a total function
from flat indices to natural channel values; the floating-point scratch
buffers used by the dithering routines are modelled as functions into the
rationals.  Stores into the clamped byte array round to the nearest integer
(ties to even, the JS `Uint8ClampedArray` conversion) and clamp into
[0, 255]. -/

namespace PixelFX

/-- Store into a natural-valued buffer at one index (`buf[j] = v`). -/
def updN (d : ℕ → ℕ) (j v : ℕ) : ℕ → ℕ := fun k => if k = j then v else d k

/-- Add into a rational scratch buffer at one index (`buf[j] += v`). -/
def addAt (f : ℕ → ℚ) (j : ℕ) (v : ℚ) : ℕ → ℚ :=
  fun k => if k = j then f j + v else f k

/-- Store three consecutive channel values (R, G, B of one pixel). -/
def write3n (d : ℕ → ℕ) (j a b c : ℕ) : ℕ → ℕ :=
  updN (updN (updN d j a) (j + 1) b) (j + 2) c

/-- Store four consecutive channel values (R, G, B, A of one pixel). -/
def write4n (d : ℕ → ℕ) (j a b c e : ℕ) : ℕ → ℕ :=
  updN (updN (updN (updN d j a) (j + 1) b) (j + 2) c) (j + 3) e

/-- Round to the nearest integer, ties to even (the conversion applied when a
number is stored into a `Uint8ClampedArray`). -/
def roundTiesEven (q : ℚ) : ℤ :=
  if q - ⌊q⌋ < 1/2 then ⌊q⌋
  else if q - ⌊q⌋ > 1/2 then ⌊q⌋ + 1
  else if 2 ∣ ⌊q⌋ then ⌊q⌋ else ⌊q⌋ + 1

/-- Conversion of a number stored into a `Uint8ClampedArray` slot: clamp into
[0, 255] and round to nearest, ties to even. -/
def u8clamp (q : ℚ) : ℕ := (min 255 (max 0 (roundTiesEven q))).toNat

/-- Standard luminance used throughout the source:
`0.2126 * r + 0.7152 * g + 0.0722 * b`. -/
def lum (r g b : ℕ) : ℚ := 0.2126 * r + 0.7152 * g + 0.0722 * b

/-! ## Color utilities (findClosestColor, rgbToCmyk, ASCII index mapping) -/

/-- A color, as the 3-element numeric array `Color` of the source. -/
abbrev Color := ℚ × ℚ × ℚ

/-- Squared Euclidean distance over the three channels, as computed inside
`findClosestColor`. -/
def colorDist (c p : Color) : ℚ :=
  (c.1 - p.1) ^ 2 + (c.2.1 - p.2.1) ^ 2 + (c.2.2 - p.2.2) ^ 2

/-- Comparison of a distance against the running minimum, where `none` stands
for the initial `Infinity` (every finite distance is below it). -/
def distLtInf (d : ℚ) : Option ℚ → Bool
  | none => true
  | some m => decide (d < m)

/-- One iteration of the `for (const paletteColor of palette)` loop of
`findClosestColor`: replace the running closest color exactly when the
distance is strictly below the running minimum. -/
def fccStep (color : Color) (acc : Color × Option ℚ) (p : Color) : Color × Option ℚ :=
  if distLtInf (colorDist color p) acc.2 then (p, some (colorDist color p)) else acc

/-- `findClosestColor` of the source: start from `palette[0]` with minimum
distance `Infinity`, scan the palette in order, keep a strictly closer entry. -/
def findClosestColor (color : Color) (palette : List Color) : Color :=
  (palette.foldl (fccStep color) (palette.headD (0, 0, 0), none)).1

/-- The tail of the `findClosestColor` fold once the first palette entry has
replaced the initial `Infinity`: from that point on the running state is
always (best, some (dist best)). -/
def fccRun (color : Color) (l : List Color) (b : Color) : Color :=
  (l.foldl (fccStep color) (b, some (colorDist color b))).1

/-- The four-entry palette `JUSTICE_PALETTE` of the source. -/
def JUSTICE_PALETTE : List (ℕ × ℕ × ℕ) :=
  [(13, 33, 108), (255, 147, 0), (215, 235, 188), (0, 0, 0)]

/-- View an 8-bit color triple as a rational `Color`. -/
def natColor (p : ℕ × ℕ × ℕ) : Color := ((p.1 : ℚ), (p.2.1 : ℚ), (p.2.2 : ℚ))

/-- `rgbToCmyk` of the source: subtractive conversion with an explicit
short circuit returning (0,0,0,1) when k = 1 (pure black). -/
def rgbToCmyk (r g b : ℚ) : ℚ × ℚ × ℚ × ℚ :=
  let c := 1 - r / 255
  let m := 1 - g / 255
  let y := 1 - b / 255
  let k := min c (min m y)
  if k = 1 then (0, 0, 0, 1)
  else ((c - k) / (1 - k), (m - k) / (1 - k), (y - k) / (1 - k), k)

/-- The quantization step of the ASCII-art processor:
`Math.floor(avgBrightness * brightnessSteps / 256)`. -/
def asciiStep (avgBrightness : ℚ) (brightnessSteps : ℕ) : ℤ :=
  ⌊avgBrightness * brightnessSteps / 256⌋

/-- The symbol index of the ASCII-art processor:
`Math.min(step, chars.length - 1)`. -/
def asciiCharIndex (avgBrightness : ℚ) (brightnessSteps charsLen : ℕ) : ℤ :=
  min (asciiStep avgBrightness brightnessSteps) ((charsLen : ℤ) - 1)

/-! ## Error-diffusion dithering -/

/-- Raster-order pixel coordinates: y from 0 to h-1 (outer loop), x from 0 to
w-1 (inner loop). -/
def rasterPositions (w h : ℕ) : List (ℕ × ℕ) :=
  (List.range h).flatMap (fun y => (List.range w).map (fun x => (x, y)))

/-- Add into three consecutive scratch slots (the R, G, B error updates of one
neighbor in `applyDitheringColor`). -/
def addAt3 (f : ℕ → ℚ) (j : ℕ) (a b c : ℚ) : ℕ → ℚ :=
  addAt (addAt (addAt f j a) (j + 1) b) (j + 2) c

/-- The four guarded neighbor updates of `applyDitheringColor` for the pixel
(x, y): right (weight 7), bottom-left (3), bottom (5), bottom-right (1), each
error times weight times `factor / 16`, on the flat 3-channel scratch buffer. -/
def diffuseColor (w h : ℕ) (factor : ℚ) (pd : ℕ → ℚ) (x y : ℕ)
    (errR errG errB : ℚ) : ℕ → ℚ :=
  let i := (y * w + x) * 3
  let diffusionFactor := factor / 16
  let pd1 := if x + 1 < w then
      addAt3 pd (i + 3) (errR * 7 * diffusionFactor) (errG * 7 * diffusionFactor)
        (errB * 7 * diffusionFactor)
    else pd
  let pd2 := if y + 1 < h ∧ 0 < x then
      addAt3 pd1 (i + w * 3 - 3) (errR * 3 * diffusionFactor) (errG * 3 * diffusionFactor)
        (errB * 3 * diffusionFactor)
    else pd1
  let pd3 := if y + 1 < h then
      addAt3 pd2 (i + w * 3) (errR * 5 * diffusionFactor) (errG * 5 * diffusionFactor)
        (errB * 5 * diffusionFactor)
    else pd2
  if y + 1 < h ∧ x + 1 < w then
    addAt3 pd3 (i + w * 3 + 3) (errR * 1 * diffusionFactor) (errG * 1 * diffusionFactor)
      (errB * 1 * diffusionFactor)
  else pd3

/-- The guarded neighbor updates of `applyDitheringBW` for the pixel (x, y) on
the flat single-channel grayscale scratch buffer, given the already scaled
`diffusionError = quantError * factor / 16`. -/
def diffuseBW (w h : ℕ) (g : ℕ → ℚ) (x y : ℕ) (diffusionError : ℚ) : ℕ → ℚ :=
  let i := y * w + x
  let g1 := if x + 1 < w then addAt g (i + 1) (diffusionError * 7) else g
  if y + 1 < h then
    let g2 := if 0 < x then addAt g1 (i + w - 1) (diffusionError * 3) else g1
    let g3 := addAt g2 (i + w) (diffusionError * 5)
    if x + 1 < w then addAt g3 (i + w + 1) (diffusionError * 1) else g3
  else g1

/-- Body of the raster loop of `applyDitheringColor`: read the scratch values
of the pixel, quantize through `findClosestColor`, store the quantized color
into the RGBA output (a clamped byte store), diffuse the quantization error. -/
def ditherColorStep (w h : ℕ) (palette : List Color) (factor : ℚ)
    (st : (ℕ → ℕ) × (ℕ → ℚ)) (pos : ℕ × ℕ) : (ℕ → ℕ) × (ℕ → ℚ) :=
  let x := pos.1
  let y := pos.2
  let d := st.1
  let pixelData := st.2
  let i := (y * w + x) * 3
  let oldR := pixelData i
  let oldG := pixelData (i + 1)
  let oldB := pixelData (i + 2)
  let newColor := findClosestColor (oldR, oldG, oldB) palette
  let outIdx := (y * w + x) * 4
  let d1 := write3n d outIdx (u8clamp newColor.1) (u8clamp newColor.2.1) (u8clamp newColor.2.2)
  let errR := oldR - newColor.1
  let errG := oldG - newColor.2.1
  let errB := oldB - newColor.2.2
  (d1, diffuseColor w h factor pixelData x y errR errG errB)

/-- The `Float32Array` scratch of `applyDitheringColor`, initialized with
`pixelData[i*3+c] = d[i*4+c]` (a fresh float array is zero elsewhere). -/
def initPixelData (d : ℕ → ℕ) (w h : ℕ) : ℕ → ℚ :=
  fun j => if j < w * h * 3 then (d ((j / 3) * 4 + j % 3) : ℚ) else 0

/-- `applyDitheringColor` of the source: raster scan of the whole buffer with
`ditherColorStep`, reading errors from and diffusing into the float scratch. -/
def applyDitheringColor (d : ℕ → ℕ) (w h : ℕ) (palette : List Color)
    (factor : ℚ) : ℕ → ℕ :=
  ((rasterPositions w h).foldl (ditherColorStep w h palette factor)
    (d, initPixelData d w h)).1

/-- Body of the raster loop of `applyDitheringBW`: compare the scratch
brightness against 127.5, store the light or dark color, diffuse the error
against the quantized value 255 or 0. -/
def ditherBWStep (w h : ℕ) (factor : ℚ) (darkColor lightColor : ℕ × ℕ × ℕ)
    (st : (ℕ → ℕ) × (ℕ → ℚ)) (pos : ℕ × ℕ) : (ℕ → ℕ) × (ℕ → ℚ) :=
  let x := pos.1
  let y := pos.2
  let d := st.1
  let grayscale := st.2
  let i := y * w + x
  let oldPixel := grayscale i
  let useLightColor : Bool := decide (oldPixel > 127.5)
  let newPixelValue : ℚ := if useLightColor then 255 else 0
  let outIdx := i * 4
  let d1 := write3n d outIdx
    (if useLightColor then lightColor.1 else darkColor.1)
    (if useLightColor then lightColor.2.1 else darkColor.2.1)
    (if useLightColor then lightColor.2.2 else darkColor.2.2)
  let quantError := oldPixel - newPixelValue
  (d1, diffuseBW w h grayscale x y (quantError * factor / 16))

/-- The grayscale `Float32Array` scratch of `applyDitheringBW`, initialized
with the luminance of every pixel. -/
def initGrayscale (d : ℕ → ℕ) (w h : ℕ) : ℕ → ℚ :=
  fun j => if j < w * h then lum (d (j * 4)) (d (j * 4 + 1)) (d (j * 4 + 2)) else 0

/-- `applyDitheringBW` of the source. -/
def applyDitheringBW (d : ℕ → ℕ) (w h : ℕ) (factor : ℚ)
    (darkColor lightColor : ℕ × ℕ × ℕ) : ℕ → ℕ :=
  ((rasterPositions w h).foldl (ditherBWStep w h factor darkColor lightColor)
    (d, initGrayscale d w h)).1

/-- Modelled from the claim wording: the classic Floyd-Steinberg weight that
the forward neighbor (xp, yp) of (x, y) should receive (7 right, 3 below-left,
5 below, 1 below-right, 0 anywhere else). -/
def fsWeight (x y xp yp : ℕ) : ℚ :=
  if yp = y ∧ xp = x + 1 then 7
  else if yp = y + 1 ∧ xp + 1 = x then 3
  else if yp = y + 1 ∧ xp = x then 5
  else if yp = y + 1 ∧ xp = x + 1 then 1
  else 0

/-- Selector for the per-channel error of the color routine. -/
def chErr (errR errG errB : ℚ) : ℕ → ℚ
  | 0 => errR
  | 1 => errG
  | _ => errB

/-! ## Block-quantization effects -/

/-- The accumulation loop of the Pixelate processor over one block: guarded
per-channel sums and the in-bounds pixel count
(`totalR, totalG, totalB, count`). -/
def pixelateBlockAcc (data : ℕ → ℕ) (w h x y ps : ℕ) : ℕ × ℕ × ℕ × ℕ :=
  (List.range' y ps).foldl (fun acc blockY =>
    (List.range' x ps).foldl (fun acc2 blockX =>
      if blockX < w ∧ blockY < h then
        let i := (blockY * w + blockX) * 4
        (acc2.1 + data i, acc2.2.1 + data (i + 1), acc2.2.2.1 + data (i + 2),
          acc2.2.2.2 + 1)
      else acc2) acc) (0, 0, 0, 0)

/-- The averaged block color of the Pixelate processor,
`Math.floor(total / count)` per channel (natural division is that floor; the
double division of the source cannot round across an integer boundary at
these magnitudes). -/
def pixelateAvg (data : ℕ → ℕ) (w h x y ps : ℕ) : ℕ × ℕ × ℕ :=
  let t := pixelateBlockAcc data w h x y ps
  (t.1 / t.2.2.2, t.2.1 / t.2.2.2, t.2.2.1 / t.2.2.2)

/-- The accumulation loop of the duotone-pixelate processor over one block:
guarded brightness sum and in-bounds pixel count. -/
def duotoneBlockAcc (data : ℕ → ℕ) (w h x y ps : ℕ) : ℚ × ℕ :=
  (List.range' y ps).foldl (fun acc blockY =>
    (List.range' x ps).foldl (fun acc2 blockX =>
      if blockX < w ∧ blockY < h then
        let i := (blockY * w + blockX) * 4
        (acc2.1 + lum (data i) (data (i + 1)) (data (i + 2)), acc2.2 + 1)
      else acc2) acc) (0, 0)

/-- The average block brightness of the duotone-pixelate processor. -/
def duotoneAvg (data : ℕ → ℕ) (w h x y ps : ℕ) : ℚ :=
  let t := duotoneBlockAcc data w h x y ps
  t.1 / t.2

/-- Modelled from the spec wording: the clipped block region, exactly the
in-bounds pixels of the block starting at (x, y) with side ps. -/
def clippedRegion (w h x y ps : ℕ) : Finset (ℕ × ℕ) :=
  Finset.Ico x (min (x + ps) w) ×ˢ Finset.Ico y (min (y + ps) h)

/-! ## Point-threshold effects -/

/-- The shared per-pixel loop shape of the threshold and grayscale processors:
for every pixel read its own R, G, B, write the three channels computed by f,
leave the alpha channel alone. -/
def rgbMapFold (f : ℕ → ℕ → ℕ → ℕ × ℕ × ℕ) (d : ℕ → ℕ) (n : ℕ) : ℕ → ℕ :=
  (List.range n).foldl (fun dd p =>
    let i := 4 * p
    let v := f (dd i) (dd (i + 1)) (dd (i + 2))
    write3n dd i v.1 v.2.1 v.2.2) d

/-- The Threshold processor: luminance strictly above the level gives 255 on
all three channels, otherwise 0; alpha untouched. -/
def thresholdEffect (d : ℕ → ℕ) (w h : ℕ) (level : ℚ) : ℕ → ℕ :=
  rgbMapFold (fun r g b =>
    let brightness := lum r g b
    let color : ℕ := if brightness > level then 255 else 0
    (color, color, color)) d (w * h)

/-- The Grayscale processor: luminance strictly above the level keeps the
luminance on all three channels (stored through the clamped byte conversion),
otherwise 0; alpha untouched. -/
def grayscaleEffect (d : ℕ → ℕ) (w h : ℕ) (level : ℚ) : ℕ → ℕ :=
  rgbMapFold (fun r g b =>
    let brightness := lum r g b
    let color : ℚ := if brightness > level then brightness else 0
    (u8clamp color, u8clamp color, u8clamp color)) d (w * h)

/-! ## CRT modulation -/

/-- JS `Math.round`: round half toward positive infinity. -/
def jsRound (q : ℚ) : ℤ := ⌊q + 1 / 2⌋

/-- Read a typed-array slot at a possibly negative index: a read outside the
array yields `undefined`, which the clamped store turns into 0. -/
def readZ (d : ℕ → ℕ) (j : ℤ) : ℕ := if 0 ≤ j then d j.toNat else 0

/-- `getPixel` of the source: round both coordinates, clamp only x into
[0, w-1], read the three channels at the flat index. -/
def getPixel (data : ℕ → ℕ) (w : ℕ) (x y : ℚ) : ℕ × ℕ × ℕ :=
  let xr : ℤ := jsRound x
  let yr : ℤ := jsRound y
  let xc : ℤ := max 0 (min xr ((w : ℤ) - 1))
  let i : ℤ := (yr * w + xc) * 4
  (readZ data i, readZ data (i + 1), readZ data (i + 2))

/-- The CRT-modulation processor on pixel data (the `Math.sin` of the source
is abstracted into the `sine` argument).  Note the source destructures
`const [r] = getPixel(...)`, `const [g] = getPixel(...)`,
`const [b] = getPixel(...)`: each binding takes the FIRST component of the
returned triple, so all three output channels copy the red channel of their
sampled pixel; alpha is forced to 255.  The scanline pass then darkens every
second row when `scanlineOpacity > 0`. -/
def crtProcessor (sine : ℚ → ℚ) (d : ℕ → ℕ) (w h : ℕ)
    (amplitude frequency aberration scanlineOpacity : ℚ) : ℕ → ℕ :=
  let processed0 : ℕ → ℕ := fun _ => 0
  let processed :=
    (List.range h).foldl (fun pd (y : ℕ) =>
      let offsetY := sine ((y : ℚ) * frequency) * amplitude
      (List.range w).foldl (fun pd2 (x : ℕ) =>
        let i := (y * w + x) * 4
        let r := (getPixel d w ((x : ℚ) - (offsetY + aberration)) (y : ℚ)).1
        let g := (getPixel d w ((x : ℚ) - offsetY) (y : ℚ)).1
        let b := (getPixel d w ((x : ℚ) - (offsetY - aberration)) (y : ℚ)).1
        write4n pd2 i r g b 255) pd) processed0
  if scanlineOpacity > 0 then
    (List.range h).foldl (fun pd (y : ℕ) =>
      if y % 2 = 0 then
        (List.range w).foldl (fun pd2 (x : ℕ) =>
          let i := (y * w + x) * 4
          let pd3 := updN pd2 i (u8clamp ((pd2 i : ℚ) * (1 - scanlineOpacity)))
          let pd4 := updN pd3 (i + 1) (u8clamp ((pd3 (i + 1) : ℚ) * (1 - scanlineOpacity)))
          updN pd4 (i + 2) (u8clamp ((pd4 (i + 2) : ℚ) * (1 - scanlineOpacity)))) pd
      else pd) processed
  else processed

/-! ## Concrete buffers used by witnesses and counterexamples -/

/-- A buffer whose every channel is 128 (mid-gray, opaque-independent). -/
def grayBuffer : ℕ → ℕ := fun _ => 128

/-- A one-pixel buffer holding the RGBA pixel (10, 20, 30, 255). -/
def crtTestBuffer : ℕ → ℕ := fun j =>
  if j = 0 then 10 else if j = 1 then 20 else if j = 2 then 30 else
  if j = 3 then 255 else 0

/-- A buffer every pixel of which is the first JUSTICE_PALETTE color
(13, 33, 108) with alpha 255. -/
def justiceBuffer : ℕ → ℕ := fun j =>
  if j % 4 = 0 then 13 else if j % 4 = 1 then 33 else if j % 4 = 2 then 108 else 255

/-- An all-black opaque buffer. -/
def blackBuffer : ℕ → ℕ := fun j => if j % 4 = 3 then 255 else 0

/-! ## Basic lemmas -/

lemma updN_self (d : ℕ → ℕ) (j v : ℕ) : updN d j v j = v := by simp [updN]

lemma updN_other (d : ℕ → ℕ) {j k : ℕ} (v : ℕ) (h : k ≠ j) : updN d j v k = d k := by
  simp [updN, h]

lemma addAt_zero (f : ℕ → ℚ) (j : ℕ) : addAt f j 0 = f := by
  funext k
  simp only [addAt, add_zero]
  by_cases h : k = j
  · simp [h]
  · simp [h]

lemma addAt_apply (f : ℕ → ℚ) (j : ℕ) (v : ℚ) (k : ℕ) :
    addAt f j v k = f k + (if k = j then v else 0) := by
  by_cases h : k = j
  · subst h; simp [addAt]
  · simp [addAt, h]

lemma roundTiesEven_intCast (n : ℤ) : roundTiesEven (n : ℚ) = n := by
  simp [roundTiesEven]

lemma u8clamp_natCast {n : ℕ} (h : n ≤ 255) : u8clamp (n : ℚ) = n := by
  have hr : roundTiesEven ((n : ℤ) : ℚ) = (n : ℤ) := roundTiesEven_intCast (n : ℤ)
  rw [Int.cast_natCast] at hr
  simp only [u8clamp, hr]
  omega

/-! ## C5: ASCII symbol index mapping -/

/-- C5: in the ASCII-art effect, the rendered symbol index equals
min(floor(avgBrightness * N / 256), len - 1); brightness 0 maps to index 0,
brightness 255 maps to an index at most N - 1, and the index is always a
valid in-bounds position of the symbol string. -/
theorem ascii_char_index_spec (avg : ℚ) (N len : ℕ)
    (h0 : 0 ≤ avg) (h255 : avg ≤ 255) (hN : 1 ≤ N) (hlen : 1 ≤ len) :
    asciiCharIndex avg N len = min ⌊avg * N / 256⌋ ((len : ℤ) - 1) ∧
    (avg = 0 → asciiCharIndex avg N len = 0) ∧
    (avg = 255 → asciiCharIndex avg N len ≤ (N : ℤ) - 1) ∧
    0 ≤ asciiCharIndex avg N len ∧ asciiCharIndex avg N len < (len : ℤ) := by
  have hstep0 : 0 ≤ asciiStep avg N := by
    apply Int.floor_nonneg.mpr
    positivity
  have hltN : asciiStep avg N < (N : ℤ) := by
    apply Int.floor_lt.mpr
    push_cast
    rw [div_lt_iff₀ (by norm_num : (0:ℚ) < 256)]
    have hNpos : (1 : ℚ) ≤ (N : ℚ) := by exact_mod_cast hN
    nlinarith
  have hlen1 : (1 : ℤ) ≤ (len : ℤ) := by exact_mod_cast hlen
  refine ⟨rfl, ?_, ?_, ?_, ?_⟩
  · intro hz
    subst hz
    have : asciiStep 0 N = 0 := by
      simp [asciiStep]
    simp only [asciiCharIndex, this]
    omega
  · intro _
    have : asciiCharIndex avg N len ≤ asciiStep avg N := min_le_left _ _
    omega
  · have h1 : (0 : ℤ) ≤ (len : ℤ) - 1 := by omega
    exact le_min hstep0 h1
  · have : asciiCharIndex avg N len ≤ (len : ℤ) - 1 := min_le_right _ _
    omega

/-- Witness for C5 at avg = 255, N = 7, len = 10. -/
theorem ascii_char_index_spec_witness :
    (0 : ℚ) ≤ 255 ∧ (255 : ℚ) ≤ 255 ∧ 1 ≤ 7 ∧ 1 ≤ 10 ∧
      asciiCharIndex 255 7 10 < (10 : ℤ) :=
  ⟨by norm_num, le_refl _, by norm_num, by norm_num,
    (ascii_char_index_spec 255 7 10 (by norm_num) le_rfl (by norm_num)
      (by norm_num)).2.2.2.2⟩

/-! ## C8: CMYK conversion black short circuit -/

/-- C8: rgbToCmyk returns (0, 0, 0, 1) on pure black, and for every
nonnegative input that is not pure black the computed k differs from 1, so
the division by (1 - k) in the else branch divides by a nonzero value and the
division-by-zero case is unreachable. -/
theorem rgbToCmyk_black_short_circuit :
    rgbToCmyk 0 0 0 = (0, 0, 0, 1) ∧
    ∀ r g b : ℚ, 0 ≤ r → 0 ≤ g → 0 ≤ b → ¬(r = 0 ∧ g = 0 ∧ b = 0) →
      min (1 - r / 255) (min (1 - g / 255) (1 - b / 255)) ≠ 1 ∧
      1 - min (1 - r / 255) (min (1 - g / 255) (1 - b / 255)) ≠ 0 := by
  constructor
  · norm_num [rgbToCmyk]
  · intro r g b hr hg hb hne
    have hlt : min (1 - r / 255) (min (1 - g / 255) (1 - b / 255)) < 1 := by
      by_cases hr0 : r = 0
      · by_cases hg0 : g = 0
        · have hb0 : b ≠ 0 := fun h => hne ⟨hr0, hg0, h⟩
          have hbpos : 0 < b := lt_of_le_of_ne hb (Ne.symm hb0)
          have : 1 - b / 255 < 1 := by
            have : 0 < b / 255 := by positivity
            linarith
          calc min (1 - r / 255) (min (1 - g / 255) (1 - b / 255))
              ≤ min (1 - g / 255) (1 - b / 255) := min_le_right _ _
            _ ≤ 1 - b / 255 := min_le_right _ _
            _ < 1 := this
        · have hgpos : 0 < g := lt_of_le_of_ne hg (Ne.symm hg0)
          have : 1 - g / 255 < 1 := by
            have : 0 < g / 255 := by positivity
            linarith
          calc min (1 - r / 255) (min (1 - g / 255) (1 - b / 255))
              ≤ min (1 - g / 255) (1 - b / 255) := min_le_right _ _
            _ ≤ 1 - g / 255 := min_le_left _ _
            _ < 1 := this
      · have hrpos : 0 < r := lt_of_le_of_ne hr (Ne.symm hr0)
        have : 1 - r / 255 < 1 := by
          have : 0 < r / 255 := by positivity
          linarith
        calc min (1 - r / 255) (min (1 - g / 255) (1 - b / 255))
            ≤ 1 - r / 255 := min_le_left _ _
          _ < 1 := this
    exact ⟨ne_of_lt hlt, fun h => (ne_of_lt hlt) (by linarith)⟩

/-- Witness for C8 at (255, 0, 0). -/
theorem rgbToCmyk_black_short_circuit_witness :
    (0 : ℚ) ≤ 255 ∧ ¬((255 : ℚ) = 0 ∧ (0 : ℚ) = 0 ∧ (0 : ℚ) = 0) ∧
      min (1 - (255 : ℚ) / 255) (min (1 - (0 : ℚ) / 255) (1 - (0 : ℚ) / 255)) ≠ 1 :=
  ⟨by norm_num, by norm_num,
    ((rgbToCmyk_black_short_circuit).2 255 0 0 (by norm_num) le_rfl le_rfl
      (by norm_num)).1⟩

/-! ## C7: findClosestColor lemmas -/

lemma colorDist_nonneg (c p : Color) : 0 ≤ colorDist c p := by
  unfold colorDist
  positivity

lemma colorDist_self (c : Color) : colorDist c c = 0 := by simp [colorDist]

lemma eq_of_colorDist_eq_zero {c p : Color} (h : colorDist c p = 0) : p = c := by
  rcases p with ⟨p1, p2, p3⟩
  rcases c with ⟨c1, c2, c3⟩
  simp only [colorDist] at h
  have h1 : c1 - p1 = 0 := by
    nlinarith [sq_nonneg (c1 - p1), sq_nonneg (c2 - p2), sq_nonneg (c3 - p3)]
  have h2 : c2 - p2 = 0 := by
    nlinarith [sq_nonneg (c1 - p1), sq_nonneg (c2 - p2), sq_nonneg (c3 - p3)]
  have h3 : c3 - p3 = 0 := by
    nlinarith [sq_nonneg (c1 - p1), sq_nonneg (c2 - p2), sq_nonneg (c3 - p3)]
  simp only [Prod.mk.injEq]
  refine ⟨by linarith, by linarith, by linarith⟩

lemma fccRun_cons (c p b : Color) (t : List Color) :
    fccRun c (p :: t) b =
      if colorDist c p < colorDist c b then fccRun c t p else fccRun c t b := by
  simp only [fccRun, List.foldl_cons, fccStep, distLtInf]
  by_cases h : colorDist c p < colorDist c b
  · simp [h]
  · simp [h]

lemma findClosestColor_cons (c p0 : Color) (rest : List Color) :
    findClosestColor c (p0 :: rest) = fccRun c rest p0 := by
  simp only [findClosestColor, List.headD, List.foldl_cons, fccStep, distLtInf, fccRun]
  rfl

lemma fccRun_spec (c : Color) : ∀ (l : List Color) (b : Color),
    ∃ l₁ l₂, b :: l = l₁ ++ fccRun c l b :: l₂ ∧
      (∀ p ∈ l₁, colorDist c (fccRun c l b) < colorDist c p) ∧
      colorDist c (fccRun c l b) ≤ colorDist c b ∧
      (∀ p ∈ l, colorDist c (fccRun c l b) ≤ colorDist c p) := by
  intro l
  induction l with
  | nil =>
      intro b
      exact ⟨[], [], rfl, by simp, le_refl _, by simp⟩
  | cons p t ih =>
      intro b
      by_cases h : colorDist c p < colorDist c b
      · have heq : fccRun c (p :: t) b = fccRun c t p := by rw [fccRun_cons, if_pos h]
        obtain ⟨l₁, l₂, hsplit, hl₁, hleb, hall⟩ := ih p
        rw [heq]
        refine ⟨b :: l₁, l₂, ?_, ?_, ?_, ?_⟩
        · rw [List.cons_append, ← hsplit]
        · intro q hq
          rcases List.mem_cons.mp hq with rfl | hq2
          · exact lt_of_le_of_lt hleb h
          · exact hl₁ q hq2
        · exact le_of_lt (lt_of_le_of_lt hleb h)
        · intro q hq
          rcases List.mem_cons.mp hq with rfl | hq2
          · exact hleb
          · exact hall q hq2
      · have heq : fccRun c (p :: t) b = fccRun c t b := by rw [fccRun_cons, if_neg h]
        have hble : colorDist c b ≤ colorDist c p := le_of_not_lt h
        obtain ⟨l₁, l₂, hsplit, hl₁, hleb, hall⟩ := ih b
        rw [heq]
        cases l₁ with
        | nil =>
            simp only [List.nil_append, List.cons.injEq] at hsplit
            obtain ⟨hres, hl₂⟩ := hsplit
            refine ⟨[], p :: t, ?_, by simp, hleb, ?_⟩
            · simp [← hres]
            · intro q hq
              rcases List.mem_cons.mp hq with rfl | hq2
              · rw [← hres]; exact hble
              · exact hall q hq2
        | cons b0 t1 =>
            simp only [List.cons_append, List.cons.injEq] at hsplit
            obtain ⟨hb0, ht⟩ := hsplit
            have hresb : colorDist c (fccRun c t b) < colorDist c b := by
              have h5 := hl₁ b0 (List.mem_cons_self _ _)
              rw [← hb0] at h5
              exact h5
            refine ⟨b :: p :: t1, l₂, ?_, ?_, hleb, ?_⟩
            · conv_lhs => rw [ht]
              simp
            · intro q hq
              rcases List.mem_cons.mp hq with rfl | hq2
              · exact hresb
              · rcases List.mem_cons.mp hq2 with rfl | hq3
                · exact lt_of_lt_of_le hresb hble
                · exact hl₁ q (List.mem_cons_of_mem _ hq3)
            · intro q hq
              rcases List.mem_cons.mp hq with rfl | hq2
              · exact le_of_lt (lt_of_lt_of_le hresb hble)
              · exact hall q hq2

lemma findClosestColor_spec (c p0 : Color) (rest : List Color) :
    ∃ l₁ l₂, p0 :: rest = l₁ ++ findClosestColor c (p0 :: rest) :: l₂ ∧
      (∀ p ∈ l₁, colorDist c (findClosestColor c (p0 :: rest)) < colorDist c p) ∧
      (∀ p ∈ p0 :: rest, colorDist c (findClosestColor c (p0 :: rest)) ≤ colorDist c p) := by
  rw [findClosestColor_cons]
  obtain ⟨l₁, l₂, hs, h1, h2, h3⟩ := fccRun_spec c rest p0
  refine ⟨l₁, l₂, hs, h1, ?_⟩
  intro q hq
  rcases List.mem_cons.mp hq with rfl | hq2
  · exact h2
  · exact h3 q hq2

lemma findClosestColor_mem (c p0 : Color) (rest : List Color) :
    findClosestColor c (p0 :: rest) ∈ p0 :: rest := by
  obtain ⟨l₁, l₂, hs, _, _⟩ := findClosestColor_spec c p0 rest
  have hmem : findClosestColor c (p0 :: rest) ∈ l₁ ++ findClosestColor c (p0 :: rest) :: l₂ :=
    List.mem_append_right _ (List.mem_cons_self _ _)
  rwa [← hs] at hmem

lemma findClosestColor_self {c p0 : Color} {rest : List Color}
    (hmem : c ∈ p0 :: rest) : findClosestColor c (p0 :: rest) = c := by
  obtain ⟨l₁, l₂, hs, h1, hmin⟩ := findClosestColor_spec c p0 rest
  have h0 : colorDist c (findClosestColor c (p0 :: rest)) ≤ 0 := by
    have := hmin c hmem
    rwa [colorDist_self] at this
  exact eq_of_colorDist_eq_zero (le_antisymm h0 (colorDist_nonneg _ _))

/-- C7: findClosestColor returns the palette entry minimizing the squared
Euclidean distance over the three channels; an exact palette member is
returned unchanged; ties resolve to the first minimal entry in palette
order. -/
theorem findClosestColor_correct (color : Color) (palette : List Color)
    (hne : palette ≠ []) :
    (∀ p ∈ palette, colorDist color (findClosestColor color palette) ≤ colorDist color p) ∧
    (color ∈ palette → findClosestColor color palette = color) ∧
    (∃ l₁ l₂, palette = l₁ ++ findClosestColor color palette :: l₂ ∧
      ∀ p ∈ l₁, colorDist color (findClosestColor color palette) < colorDist color p) := by
  obtain ⟨p0, rest, rfl⟩ := List.exists_cons_of_ne_nil hne
  obtain ⟨l₁, l₂, hs, h1, hmin⟩ := findClosestColor_spec color p0 rest
  exact ⟨hmin, fun hm => findClosestColor_self hm, ⟨l₁, l₂, hs, h1⟩⟩

/-- Witness for C7: a two-entry palette with the input color equidistant from
both entries. -/
theorem findClosestColor_correct_witness :
    ([((0 : ℚ), (0 : ℚ), (0 : ℚ)), ((2 : ℚ), (0 : ℚ), (0 : ℚ))] : List Color) ≠ [] ∧
    ∀ p ∈ ([((0 : ℚ), (0 : ℚ), (0 : ℚ)), ((2 : ℚ), (0 : ℚ), (0 : ℚ))] : List Color),
      colorDist (1, 0, 0) (findClosestColor (1, 0, 0) [(0, 0, 0), (2, 0, 0)]) ≤
        colorDist (1, 0, 0) p :=
  ⟨by simp, (findClosestColor_correct (1, 0, 0) [(0, 0, 0), (2, 0, 0)] (by simp)).1⟩

/-! ## C3 and C10: per-pixel RGB map effects -/

lemma write3n_apply (d : ℕ → ℕ) (j a b c k : ℕ) :
    write3n d j a b c k =
      if k = j + 2 then c else if k = j + 1 then b else if k = j then a else d k := rfl

lemma rgbMapFold_succ (f : ℕ → ℕ → ℕ → ℕ × ℕ × ℕ) (d : ℕ → ℕ) (n : ℕ) :
    rgbMapFold f d (n + 1) =
      write3n (rgbMapFold f d n) (4 * n)
        (f (rgbMapFold f d n (4 * n)) (rgbMapFold f d n (4 * n + 1))
          (rgbMapFold f d n (4 * n + 2))).1
        (f (rgbMapFold f d n (4 * n)) (rgbMapFold f d n (4 * n + 1))
          (rgbMapFold f d n (4 * n + 2))).2.1
        (f (rgbMapFold f d n (4 * n)) (rgbMapFold f d n (4 * n + 1))
          (rgbMapFold f d n (4 * n + 2))).2.2 := by
  simp [rgbMapFold, List.range_succ]

lemma rgbMapFold_spec (f : ℕ → ℕ → ℕ → ℕ × ℕ × ℕ) (d : ℕ → ℕ) :
    ∀ n, (∀ j, j % 4 = 3 ∨ 4 * n ≤ j → rgbMapFold f d n j = d j) ∧
      (∀ p, p < n →
        rgbMapFold f d n (4 * p) = (f (d (4 * p)) (d (4 * p + 1)) (d (4 * p + 2))).1 ∧
        rgbMapFold f d n (4 * p + 1) = (f (d (4 * p)) (d (4 * p + 1)) (d (4 * p + 2))).2.1 ∧
        rgbMapFold f d n (4 * p + 2) = (f (d (4 * p)) (d (4 * p + 1)) (d (4 * p + 2))).2.2) := by
  intro n
  induction n with
  | zero =>
      constructor
      · intro j _
        rfl
      · intro p hp
        exact absurd hp (Nat.not_lt_zero p)
  | succ n ih =>
      obtain ⟨ih1, ih2⟩ := ih
      have hd0 : rgbMapFold f d n (4 * n) = d (4 * n) := ih1 _ (Or.inr (le_refl _))
      have hd1 : rgbMapFold f d n (4 * n + 1) = d (4 * n + 1) := ih1 _ (Or.inr (by omega))
      have hd2 : rgbMapFold f d n (4 * n + 2) = d (4 * n + 2) := ih1 _ (Or.inr (by omega))
      constructor
      · intro j hj
        rw [rgbMapFold_succ, write3n_apply,
          if_neg (by omega), if_neg (by omega), if_neg (by omega)]
        exact ih1 j (by omega)
      · intro p hp
        by_cases hpn : p = n
        · subst hpn
          rw [rgbMapFold_succ]
          refine ⟨?_, ?_, ?_⟩
          · rw [write3n_apply, if_neg (by omega), if_neg (by omega), if_pos rfl,
              hd0, hd1, hd2]
          · rw [write3n_apply, if_neg (by omega), if_pos rfl, hd0, hd1, hd2]
          · rw [write3n_apply, if_pos rfl, hd0, hd1, hd2]
        · have hplt : p < n := by omega
          have h2 := ih2 p hplt
          rw [rgbMapFold_succ]
          refine ⟨?_, ?_, ?_⟩
          · rw [write3n_apply, if_neg (by omega), if_neg (by omega), if_neg (by omega)]
            exact h2.1
          · rw [write3n_apply, if_neg (by omega), if_neg (by omega), if_neg (by omega)]
            exact h2.2.1
          · rw [write3n_apply, if_neg (by omega), if_neg (by omega), if_neg (by omega)]
            exact h2.2.2

lemma lum_128 : lum 128 128 128 = 128 := by norm_num [lum]

/-- C10: the Grayscale effect writes only the R, G and B channels of each
pixel, setting all three to the same stored value (the clamped luminance when
it strictly exceeds the level, else 0), and every alpha channel after the
effect equals the alpha channel before it. -/
theorem grayscale_writes_rgb_preserves_alpha (d : ℕ → ℕ) (w h : ℕ) (level : ℚ) :
    (∀ j, j % 4 = 3 ∨ 4 * (w * h) ≤ j → grayscaleEffect d w h level j = d j) ∧
    (∀ p, p < w * h →
      grayscaleEffect d w h level (4 * p) =
        u8clamp (if lum (d (4 * p)) (d (4 * p + 1)) (d (4 * p + 2)) > level
          then lum (d (4 * p)) (d (4 * p + 1)) (d (4 * p + 2)) else 0) ∧
      grayscaleEffect d w h level (4 * p + 1) = grayscaleEffect d w h level (4 * p) ∧
      grayscaleEffect d w h level (4 * p + 2) = grayscaleEffect d w h level (4 * p) ∧
      grayscaleEffect d w h level (4 * p + 3) = d (4 * p + 3)) := by
  have hs := rgbMapFold_spec (fun r g b =>
    let brightness := lum r g b
    let color : ℚ := if brightness > level then brightness else 0
    (u8clamp color, u8clamp color, u8clamp color)) d (w * h)
  refine ⟨hs.1, ?_⟩
  intro p hp
  have h2 := hs.2 p hp
  refine ⟨h2.1, ?_, ?_, ?_⟩
  · exact h2.2.1.trans h2.1.symm
  · exact h2.2.2.trans h2.1.symm
  · exact hs.1 (4 * p + 3) (Or.inl (by omega))

/-- Witness for C10 on a one-pixel buffer. -/
theorem grayscale_writes_rgb_preserves_alpha_witness :
    (3 % 4 = 3 ∨ 4 * (1 * 1) ≤ 3) ∧
    grayscaleEffect grayBuffer 1 1 100 3 = grayBuffer 3 ∧
    grayscaleEffect grayBuffer 1 1 100 (4 * 0 + 1) = grayscaleEffect grayBuffer 1 1 100 (4 * 0) := by
  refine ⟨Or.inl rfl, ?_, ?_⟩
  · exact (grayscale_writes_rgb_preserves_alpha grayBuffer 1 1 100).1 3 (Or.inl rfl)
  · exact ((grayscale_writes_rgb_preserves_alpha grayBuffer 1 1 100).2 0 (by omega)).2.1

/-- C3: the Threshold effect at level 128 on a 4x4 buffer whose every pixel
is (128, 128, 128) yields (0, 0, 0) at every pixel (the luminance 128 is not
strictly greater than the level 128) and preserves every alpha channel. -/
theorem threshold_midgray_to_black (d : ℕ → ℕ)
    (hd : ∀ i, i < 16 → d (4 * i) = 128 ∧ d (4 * i + 1) = 128 ∧ d (4 * i + 2) = 128) :
    ∀ i, i < 16 →
      thresholdEffect d 4 4 128 (4 * i) = 0 ∧
      thresholdEffect d 4 4 128 (4 * i + 1) = 0 ∧
      thresholdEffect d 4 4 128 (4 * i + 2) = 0 ∧
      thresholdEffect d 4 4 128 (4 * i + 3) = d (4 * i + 3) := by
  have hs := rgbMapFold_spec (fun r g b =>
    let brightness := lum r g b
    let color : ℕ := if brightness > (128 : ℚ) then 255 else 0
    (color, color, color)) d (4 * 4)
  intro i hi
  have hi4 : i < 4 * 4 := by omega
  have h2 := hs.2 i hi4
  obtain ⟨e0, e1, e2⟩ := h2
  rw [(hd i hi).1, (hd i hi).2.1, (hd i hi).2.2] at e0 e1 e2
  have hval : (if lum 128 128 128 > (128 : ℚ) then (255 : ℕ) else 0) = 0 := by
    rw [if_neg]
    rw [lum_128]
    exact lt_irrefl _
  refine ⟨?_, ?_, ?_, ?_⟩
  · exact e0.trans hval
  · exact e1.trans hval
  · exact e2.trans hval
  · exact hs.1 (4 * i + 3) (Or.inl (by omega))

/-- Witness for C3 with the all-128 buffer. -/
theorem threshold_midgray_to_black_witness :
    (∀ i, i < 16 → grayBuffer (4 * i) = 128 ∧ grayBuffer (4 * i + 1) = 128 ∧
      grayBuffer (4 * i + 2) = 128) ∧
    thresholdEffect grayBuffer 4 4 128 0 = 0 ∧
    thresholdEffect grayBuffer 4 4 128 3 = grayBuffer 3 := by
  have h := threshold_midgray_to_black grayBuffer (fun i _ => ⟨rfl, rfl, rfl⟩)
  exact ⟨fun i _ => ⟨rfl, rfl, rfl⟩, (h 0 (by omega)).1, (h 0 (by omega)).2.2.2⟩

/-! ## C2: block accumulation equals the sum over the clipped region -/

lemma foldl_guard_sum {M : Type} [AddCommMonoid M] (P : ℕ → Prop) [DecidablePred P]
    (f : ℕ → M) : ∀ (ps x : ℕ) (a : M),
    (List.range' x ps).foldl (fun acc n => if P n then acc + f n else acc) a =
      a + ∑ n in Finset.Ico x (x + ps), if P n then f n else 0 := by
  intro ps
  induction ps with
  | zero =>
      intro x a
      simp
  | succ ps ih =>
      intro x a
      rw [List.range'_succ, List.foldl_cons, ih (x + 1),
        Finset.sum_eq_sum_Ico_succ_bot (by omega : x < x + (ps + 1))]
      have he : x + 1 + ps = x + (ps + 1) := by omega
      rw [he]
      by_cases hP : P x
      · rw [if_pos hP, if_pos hP, add_assoc]
      · rw [if_neg hP, if_neg hP, zero_add]

lemma foldl_add_sum {M : Type} [AddCommMonoid M] (g : ℕ → M) :
    ∀ (ps x : ℕ) (a : M),
    (List.range' x ps).foldl (fun acc n => acc + g n) a =
      a + ∑ n in Finset.Ico x (x + ps), g n := by
  intro ps
  induction ps with
  | zero =>
      intro x a
      simp
  | succ ps ih =>
      intro x a
      rw [List.range'_succ, List.foldl_cons, ih (x + 1),
        Finset.sum_eq_sum_Ico_succ_bot (by omega : x < x + (ps + 1))]
      have he : x + 1 + ps = x + (ps + 1) := by omega
      rw [he, add_assoc]

lemma sum_ite_lt {M : Type} [AddCommMonoid M] (a b c : ℕ) (f : ℕ → M) :
    (∑ n in Finset.Ico a b, if n < c then f n else 0) =
      ∑ n in Finset.Ico a (min b c), f n := by
  rw [← Finset.sum_filter]
  congr 1
  ext n
  simp only [Finset.mem_filter, Finset.mem_Ico]
  omega

lemma blockFold_eq_sum {M : Type} [AddCommMonoid M] (w h : ℕ) (f : ℕ → ℕ → M)
    (x y ps : ℕ) (a : M) :
    (List.range' y ps).foldl (fun acc blockY =>
      (List.range' x ps).foldl (fun acc2 blockX =>
        if blockX < w ∧ blockY < h then acc2 + f blockX blockY else acc2) acc) a =
    a + ∑ p in clippedRegion w h x y ps, f p.1 p.2 := by
  have hfun : (fun (acc : M) (blockY : ℕ) =>
      (List.range' x ps).foldl (fun acc2 blockX =>
        if blockX < w ∧ blockY < h then acc2 + f blockX blockY else acc2) acc) =
      (fun acc blockY =>
        acc + ∑ bx in Finset.Ico x (x + ps),
          if bx < w ∧ blockY < h then f bx blockY else 0) := by
    funext acc blockY
    exact foldl_guard_sum (fun bx => bx < w ∧ blockY < h) (fun bx => f bx blockY) ps x acc
  rw [hfun, foldl_add_sum]
  congr 1
  have h1 : ∀ blockY ∈ Finset.Ico y (y + ps),
      (∑ bx in Finset.Ico x (x + ps), if bx < w ∧ blockY < h then f bx blockY else 0) =
      if blockY < h then ∑ bx in Finset.Ico x (min (x + ps) w), f bx blockY else 0 := by
    intro blockY _
    by_cases hby : blockY < h
    · rw [if_pos hby, ← sum_ite_lt x (x + ps) w (fun bx => f bx blockY)]
      apply Finset.sum_congr rfl
      intro bx _
      by_cases hbx : bx < w
      · rw [if_pos ⟨hbx, hby⟩, if_pos hbx]
      · rw [if_neg (fun hc => hbx hc.1), if_neg hbx]
    · rw [if_neg hby]
      apply Finset.sum_eq_zero
      intro bx _
      exact if_neg (fun hc => hby hc.2)
  rw [Finset.sum_congr rfl h1, sum_ite_lt y (y + ps) h
    (fun blockY => ∑ bx in Finset.Ico x (min (x + ps) w), f bx blockY)]
  rw [clippedRegion, Finset.sum_product]
  exact Finset.sum_comm

lemma pixelateBlockAcc_eq_sum (data : ℕ → ℕ) (w h x y ps : ℕ) :
    pixelateBlockAcc data w h x y ps =
      (∑ p in clippedRegion w h x y ps, data ((p.2 * w + p.1) * 4),
       ∑ p in clippedRegion w h x y ps, data ((p.2 * w + p.1) * 4 + 1),
       ∑ p in clippedRegion w h x y ps, data ((p.2 * w + p.1) * 4 + 2),
       (clippedRegion w h x y ps).card) := by
  have hstep : pixelateBlockAcc data w h x y ps =
      (List.range' y ps).foldl (fun acc blockY =>
        (List.range' x ps).foldl (fun acc2 blockX =>
          if blockX < w ∧ blockY < h then
            acc2 + (data ((blockY * w + blockX) * 4), data ((blockY * w + blockX) * 4 + 1),
              data ((blockY * w + blockX) * 4 + 2), (1 : ℕ))
          else acc2) acc) ((0, 0, 0, 0) : ℕ × ℕ × ℕ × ℕ) := by
    unfold pixelateBlockAcc
    congr 1
  rw [hstep, blockFold_eq_sum w h
    (fun bx yy => (data ((yy * w + bx) * 4), data ((yy * w + bx) * 4 + 1),
      data ((yy * w + bx) * 4 + 2), (1 : ℕ))) x y ps ((0, 0, 0, 0) : ℕ × ℕ × ℕ × ℕ)]
  have hz : ((0, 0, 0, 0) : ℕ × ℕ × ℕ × ℕ) = 0 := rfl
  rw [hz, zero_add]
  refine Prod.ext ?_ (Prod.ext ?_ (Prod.ext ?_ ?_))
  · rw [Prod.fst_sum]
  · rw [Prod.snd_sum, Prod.fst_sum]
  · rw [Prod.snd_sum, Prod.snd_sum, Prod.fst_sum]
  · rw [Prod.snd_sum, Prod.snd_sum, Prod.snd_sum]
    exact (Finset.card_eq_sum_ones _).symm

lemma duotoneBlockAcc_eq_sum (data : ℕ → ℕ) (w h x y ps : ℕ) :
    duotoneBlockAcc data w h x y ps =
      (∑ p in clippedRegion w h x y ps,
         lum (data ((p.2 * w + p.1) * 4)) (data ((p.2 * w + p.1) * 4 + 1))
           (data ((p.2 * w + p.1) * 4 + 2)),
       (clippedRegion w h x y ps).card) := by
  have hstep : duotoneBlockAcc data w h x y ps =
      (List.range' y ps).foldl (fun acc blockY =>
        (List.range' x ps).foldl (fun acc2 blockX =>
          if blockX < w ∧ blockY < h then
            acc2 + (lum (data ((blockY * w + blockX) * 4))
              (data ((blockY * w + blockX) * 4 + 1)) (data ((blockY * w + blockX) * 4 + 2)),
              (1 : ℕ))
          else acc2) acc) ((0, 0) : ℚ × ℕ) := by
    unfold duotoneBlockAcc
    congr 1
  rw [hstep, blockFold_eq_sum w h
    (fun bx yy => (lum (data ((yy * w + bx) * 4)) (data ((yy * w + bx) * 4 + 1))
      (data ((yy * w + bx) * 4 + 2)), (1 : ℕ))) x y ps ((0, 0) : ℚ × ℕ)]
  have hz : ((0, 0) : ℚ × ℕ) = 0 := rfl
  rw [hz, zero_add]
  refine Prod.ext ?_ ?_
  · rw [Prod.fst_sum]
  · rw [Prod.snd_sum]
    exact (Finset.card_eq_sum_ones _).symm

/-- C2: both block-quantization processors accumulate their totals over
exactly the in-bounds pixels of the block: the counts equal the cardinality
of the clipped region, the totals equal the sums over that region, and hence
the block averages equal the true averages of the clipped region (with
out-of-bounds positions contributing nothing). -/
theorem block_average_over_clipped_region (data : ℕ → ℕ) (w h x y ps : ℕ) :
    pixelateBlockAcc data w h x y ps =
      (∑ p in clippedRegion w h x y ps, data ((p.2 * w + p.1) * 4),
       ∑ p in clippedRegion w h x y ps, data ((p.2 * w + p.1) * 4 + 1),
       ∑ p in clippedRegion w h x y ps, data ((p.2 * w + p.1) * 4 + 2),
       (clippedRegion w h x y ps).card) ∧
    duotoneBlockAcc data w h x y ps =
      (∑ p in clippedRegion w h x y ps,
         lum (data ((p.2 * w + p.1) * 4)) (data ((p.2 * w + p.1) * 4 + 1))
           (data ((p.2 * w + p.1) * 4 + 2)),
       (clippedRegion w h x y ps).card) ∧
    pixelateAvg data w h x y ps =
      ((∑ p in clippedRegion w h x y ps, data ((p.2 * w + p.1) * 4)) /
         (clippedRegion w h x y ps).card,
       (∑ p in clippedRegion w h x y ps, data ((p.2 * w + p.1) * 4 + 1)) /
         (clippedRegion w h x y ps).card,
       (∑ p in clippedRegion w h x y ps, data ((p.2 * w + p.1) * 4 + 2)) /
         (clippedRegion w h x y ps).card) ∧
    duotoneAvg data w h x y ps =
      (∑ p in clippedRegion w h x y ps,
         lum (data ((p.2 * w + p.1) * 4)) (data ((p.2 * w + p.1) * 4 + 1))
           (data ((p.2 * w + p.1) * 4 + 2))) /
        ((clippedRegion w h x y ps).card : ℚ) := by
  refine ⟨pixelateBlockAcc_eq_sum data w h x y ps,
    duotoneBlockAcc_eq_sum data w h x y ps, ?_, ?_⟩
  · unfold pixelateAvg
    rw [pixelateBlockAcc_eq_sum data w h x y ps]
  · unfold duotoneAvg
    rw [duotoneBlockAcc_eq_sum data w h x y ps]

/-! ## C1: error diffusion hits exactly the four in-bounds forward neighbors -/

lemma rowMajor_inj {w x1 y1 x2 y2 : ℕ} (h1 : x1 < w) (h2 : x2 < w)
    (he : y1 * w + x1 = y2 * w + x2) : y1 = y2 ∧ x1 = x2 := by
  have hx : x1 = x2 := by
    have e1 : (w * y1 + x1) % w = x1 % w := Nat.mul_add_mod w y1 x1
    have e2 : (w * y2 + x2) % w = x2 % w := Nat.mul_add_mod w y2 x2
    rw [Nat.mod_eq_of_lt h1] at e1
    rw [Nat.mod_eq_of_lt h2] at e2
    have hc : w * y1 + x1 = w * y2 + x2 := by
      rw [Nat.mul_comm w y1, Nat.mul_comm w y2]
      exact he
    rw [hc, e2] at e1
    exact e1.symm
  refine ⟨?_, hx⟩
  have hw : 0 < w := Nat.lt_of_le_of_lt (Nat.zero_le x1) h1
  have hm : y1 * w = y2 * w := by omega
  exact Nat.eq_of_mul_eq_mul_right hw hm

lemma rowMajor_ne (w xp yp xn yn : ℕ) (hxp : xp < w) (hxn : xn < w)
    (hne : ¬(yp = yn ∧ xp = xn)) : yp * w + xp ≠ yn * w + xn := by
  intro he
  exact hne (rowMajor_inj hxp hxn he)

lemma rowMajor3_ne (w xp yp xn yn ch c0 : ℕ) (hxp : xp < w) (hxn : xn < w)
    (hch : ch < 3) (hc0 : c0 < 3) (hne : ¬(yp = yn ∧ xp = xn)) :
    (yp * w + xp) * 3 + ch ≠ (yn * w + xn) * 3 + c0 := by
  intro he
  have key : yp * w + xp = yn * w + xn := by
    set A := yp * w + xp with hA
    set B := yn * w + xn with hB
    omega
  exact hne (rowMajor_inj hxp hxn key)

lemma addAt3_apply (f : ℕ → ℚ) (j : ℕ) (a b c : ℚ) (k : ℕ) :
    addAt3 f j a b c k = f k + (if k = j then a else 0) + (if k = j + 1 then b else 0) +
      (if k = j + 2 then c else 0) := by
  unfold addAt3
  rw [addAt_apply, addAt_apply, addAt_apply]

lemma guard_term_zero (P : Prop) [Decidable P] (v1 v2 v3 : ℚ) (t j : ℕ)
    (h : P → t ≠ j ∧ t ≠ j + 1 ∧ t ≠ j + 2) :
    (if P then (if t = j then v1 else 0) + (if t = j + 1 then v2 else 0) +
      (if t = j + 2 then v3 else 0) else 0) = 0 := by
  by_cases hP : P
  · obtain ⟨n1, n2, n3⟩ := h hP
    rw [if_pos hP, if_neg n1, if_neg n2, if_neg n3]
    ring
  · exact if_neg hP

lemma guard_term_hit (P : Prop) [Decidable P] (v1 v2 v3 : ℚ) (t j ch : ℕ)
    (hP : P) (hch : ch < 3) (ht : t = j + ch) :
    (if P then (if t = j then v1 else 0) + (if t = j + 1 then v2 else 0) +
      (if t = j + 2 then v3 else 0) else 0) = chErr v1 v2 v3 ch := by
  rw [if_pos hP]
  interval_cases ch
  · rw [if_pos (by omega), if_neg (by omega), if_neg (by omega)]
    simp [chErr]
  · rw [if_neg (by omega), if_pos (by omega), if_neg (by omega)]
    simp [chErr]
  · rw [if_neg (by omega), if_neg (by omega), if_pos (by omega)]
    simp [chErr]

lemma chErr_scale (a b c k f : ℚ) (ch : ℕ) (hch : ch < 3) :
    chErr (a * k * f) (b * k * f) (c * k * f) ch = chErr a b c ch * k * f := by
  interval_cases ch <;> simp [chErr]

lemma guard1_zero (P : Prop) [Decidable P] (v : ℚ) (t j : ℕ) (h : P → t ≠ j) :
    (if P then (if t = j then v else 0) else 0) = 0 := by
  by_cases hP : P
  · rw [if_pos hP, if_neg (h hP)]
  · exact if_neg hP

lemma guard1_hit (P : Prop) [Decidable P] (v : ℚ) (t j : ℕ) (hP : P) (ht : t = j) :
    (if P then (if t = j then v else 0) else 0) = v := by
  rw [if_pos hP, if_pos ht]

lemma bw_mid_zero (Q R S : Prop) [Decidable Q] [Decidable R] [Decidable S]
    (v1 v2 v3 : ℚ) (t j1 j2 j3 : ℕ)
    (h : Q → (R → t ≠ j1) ∧ t ≠ j2 ∧ (S → t ≠ j3)) :
    (if Q then (if R then (if t = j1 then v1 else 0) else 0) + (if t = j2 then v2 else 0)
      + (if S then (if t = j3 then v3 else 0) else 0) else 0) = 0 := by
  by_cases hQ : Q
  · obtain ⟨h1, h2, h3⟩ := h hQ
    rw [if_pos hQ, if_neg h2, guard1_zero R v1 t j1 h1, guard1_zero S v3 t j3 h3]
    ring
  · exact if_neg hQ

lemma bw_mid_hit_left (Q R S : Prop) [Decidable Q] [Decidable R] [Decidable S]
    (v1 v2 v3 : ℚ) (t j1 j2 j3 : ℕ)
    (hQ : Q) (hR : R) (ht1 : t = j1) (ht2 : t ≠ j2) (ht3 : S → t ≠ j3) :
    (if Q then (if R then (if t = j1 then v1 else 0) else 0) + (if t = j2 then v2 else 0)
      + (if S then (if t = j3 then v3 else 0) else 0) else 0) = v1 := by
  rw [if_pos hQ, if_pos hR, if_pos ht1, if_neg ht2, guard1_zero S v3 t j3 ht3]
  ring

lemma bw_mid_hit_mid (Q R S : Prop) [Decidable Q] [Decidable R] [Decidable S]
    (v1 v2 v3 : ℚ) (t j1 j2 j3 : ℕ)
    (hQ : Q) (ht1 : R → t ≠ j1) (ht2 : t = j2) (ht3 : S → t ≠ j3) :
    (if Q then (if R then (if t = j1 then v1 else 0) else 0) + (if t = j2 then v2 else 0)
      + (if S then (if t = j3 then v3 else 0) else 0) else 0) = v2 := by
  rw [if_pos hQ, if_pos ht2, guard1_zero R v1 t j1 ht1, guard1_zero S v3 t j3 ht3]
  ring

lemma bw_mid_hit_right (Q R S : Prop) [Decidable Q] [Decidable R] [Decidable S]
    (v1 v2 v3 : ℚ) (t j1 j2 j3 : ℕ)
    (hQ : Q) (hS : S) (ht1 : R → t ≠ j1) (ht2 : t ≠ j2) (ht3 : t = j3) :
    (if Q then (if R then (if t = j1 then v1 else 0) else 0) + (if t = j2 then v2 else 0)
      + (if S then (if t = j3 then v3 else 0) else 0) else 0) = v3 := by
  rw [if_pos hQ, if_pos hS, if_pos ht3, if_neg ht2, guard1_zero R v1 t j1 ht1]
  ring

set_option maxHeartbeats 1000000 in
lemma diffuseColor_eval (w h x y : ℕ) (factor errR errG errB : ℚ) (pd : ℕ → ℚ)
    (t : ℕ) :
    diffuseColor w h factor pd x y errR errG errB t =
      pd t
      + (if x + 1 < w then
          (if t = (y * w + x) * 3 + 3 then errR * 7 * (factor / 16) else 0)
          + (if t = (y * w + x) * 3 + 3 + 1 then errG * 7 * (factor / 16) else 0)
          + (if t = (y * w + x) * 3 + 3 + 2 then errB * 7 * (factor / 16) else 0)
        else 0)
      + (if y + 1 < h ∧ 0 < x then
          (if t = (y * w + x) * 3 + w * 3 - 3 then errR * 3 * (factor / 16) else 0)
          + (if t = (y * w + x) * 3 + w * 3 - 3 + 1 then errG * 3 * (factor / 16) else 0)
          + (if t = (y * w + x) * 3 + w * 3 - 3 + 2 then errB * 3 * (factor / 16) else 0)
        else 0)
      + (if y + 1 < h then
          (if t = (y * w + x) * 3 + w * 3 then errR * 5 * (factor / 16) else 0)
          + (if t = (y * w + x) * 3 + w * 3 + 1 then errG * 5 * (factor / 16) else 0)
          + (if t = (y * w + x) * 3 + w * 3 + 2 then errB * 5 * (factor / 16) else 0)
        else 0)
      + (if y + 1 < h ∧ x + 1 < w then
          (if t = (y * w + x) * 3 + w * 3 + 3 then errR * 1 * (factor / 16) else 0)
          + (if t = (y * w + x) * 3 + w * 3 + 3 + 1 then errG * 1 * (factor / 16) else 0)
          + (if t = (y * w + x) * 3 + w * 3 + 3 + 2 then errB * 1 * (factor / 16) else 0)
        else 0) := by
  simp only [diffuseColor, apply_ite (fun f : ℕ → ℚ => f t), addAt3_apply]
  by_cases h1 : x + 1 < w <;> by_cases h2 : y + 1 < h <;> by_cases h3 : 0 < x <;>
    simp only [h1, h2, h3, true_and, false_and, and_true, and_false,
      if_true, if_false] <;> ring

lemma diffuseBW_eval (w h x y : ℕ) (de : ℚ) (g : ℕ → ℚ) (t : ℕ) :
    diffuseBW w h g x y de t =
      g t
      + (if x + 1 < w then (if t = y * w + x + 1 then de * 7 else 0) else 0)
      + (if y + 1 < h then
          (if 0 < x then (if t = y * w + x + w - 1 then de * 3 else 0) else 0)
          + (if t = y * w + x + w then de * 5 else 0)
          + (if x + 1 < w then (if t = y * w + x + w + 1 then de * 1 else 0) else 0)
        else 0) := by
  simp only [diffuseBW, apply_ite (fun f : ℕ → ℚ => f t), addAt_apply]
  by_cases h1 : x + 1 < w <;> by_cases h2 : y + 1 < h <;> by_cases h3 : 0 < x <;>
    simp only [h1, h2, h3, if_true, if_false] <;> ring

/-- C1: in both error-diffusion routines the quantization error of the pixel
(x, y) is diffused to exactly the four forward neighbors: right (weight 7),
below-left (3), below (5), below-right (1), each divided by 16 and multiplied
by the caller-supplied factor; every other in-bounds position of the scratch
buffer is left unchanged, and neighbors outside the bounds are skipped (no
wraparound), as expressed by the weight function being 0 there. -/
theorem dithering_error_diffusion (w h x y xp yp : ℕ) (hx : x < w) (hy : y < h)
    (hxp : xp < w) (hyp : yp < h) (factor errR errG errB e : ℚ)
    (pd g : ℕ → ℚ) :
    (∀ ch, ch < 3 →
      diffuseColor w h factor pd x y errR errG errB ((yp * w + xp) * 3 + ch) =
        pd ((yp * w + xp) * 3 + ch) +
          chErr errR errG errB ch * fsWeight x y xp yp * (factor / 16)) ∧
    diffuseBW w h g x y (e * factor / 16) (yp * w + xp) =
      g (yp * w + xp) + e * fsWeight x y xp yp * (factor / 16) := by
  have hwpos : 0 < w := by omega
  have hyw : (y + 1) * w = y * w + w := by ring
  constructor
  · intro ch hch
    rw [diffuseColor_eval]
    by_cases hA : yp = y ∧ xp = x + 1
    · obtain ⟨hA1, hA2⟩ := hA
      subst hA1
      subst hA2
      have hfs : fsWeight x yp (x + 1) yp = 7 := by
        unfold fsWeight
        rw [if_pos ⟨rfl, rfl⟩]
      rw [hfs,
        guard_term_hit (x + 1 < w) (errR * 7 * (factor / 16)) (errG * 7 * (factor / 16))
          (errB * 7 * (factor / 16)) ((yp * w + (x + 1)) * 3 + ch) ((yp * w + x) * 3 + 3)
          ch hxp hch (by omega),
        guard_term_zero (yp + 1 < h ∧ 0 < x) (errR * 3 * (factor / 16))
          (errG * 3 * (factor / 16)) (errB * 3 * (factor / 16))
          ((yp * w + (x + 1)) * 3 + ch) ((yp * w + x) * 3 + w * 3 - 3)
          (fun hg => ⟨by omega, by omega, by omega⟩),
        guard_term_zero (yp + 1 < h) (errR * 5 * (factor / 16)) (errG * 5 * (factor / 16))
          (errB * 5 * (factor / 16)) ((yp * w + (x + 1)) * 3 + ch) ((yp * w + x) * 3 + w * 3)
          (fun hg => ⟨by omega, by omega, by omega⟩),
        guard_term_zero (yp + 1 < h ∧ x + 1 < w) (errR * 1 * (factor / 16))
          (errG * 1 * (factor / 16)) (errB * 1 * (factor / 16))
          ((yp * w + (x + 1)) * 3 + ch) ((yp * w + x) * 3 + w * 3 + 3)
          (fun hg => ⟨by omega, by omega, by omega⟩),
        chErr_scale errR errG errB 7 (factor / 16) ch hch]
      ring
    · by_cases hB : yp = y + 1 ∧ xp + 1 = x
      · obtain ⟨hB1, hB2⟩ := hB
        subst hB1
        subst hB2
        have hfs : fsWeight (xp + 1) y xp (y + 1) = 3 := by
          unfold fsWeight
          rw [if_neg (by omega), if_pos ⟨rfl, rfl⟩]
        rw [hfs,
          guard_term_zero (xp + 1 + 1 < w) (errR * 7 * (factor / 16))
            (errG * 7 * (factor / 16)) (errB * 7 * (factor / 16))
            (((y + 1) * w + xp) * 3 + ch) ((y * w + (xp + 1)) * 3 + 3)
            (fun hg => ⟨by omega, by omega, by omega⟩),
          guard_term_hit (y + 1 < h ∧ 0 < xp + 1) (errR * 3 * (factor / 16))
            (errG * 3 * (factor / 16)) (errB * 3 * (factor / 16))
            (((y + 1) * w + xp) * 3 + ch) ((y * w + (xp + 1)) * 3 + w * 3 - 3)
            ch ⟨hyp, by omega⟩ hch (by omega),
          guard_term_zero (y + 1 < h) (errR * 5 * (factor / 16)) (errG * 5 * (factor / 16))
            (errB * 5 * (factor / 16)) (((y + 1) * w + xp) * 3 + ch)
            ((y * w + (xp + 1)) * 3 + w * 3)
            (fun hg => ⟨by omega, by omega, by omega⟩),
          guard_term_zero (y + 1 < h ∧ xp + 1 + 1 < w) (errR * 1 * (factor / 16))
            (errG * 1 * (factor / 16)) (errB * 1 * (factor / 16))
            (((y + 1) * w + xp) * 3 + ch) ((y * w + (xp + 1)) * 3 + w * 3 + 3)
            (fun hg => ⟨by omega, by omega, by omega⟩),
          chErr_scale errR errG errB 3 (factor / 16) ch hch]
        ring
      · by_cases hC : yp = y + 1 ∧ xp = x
        · obtain ⟨hC1, hC2⟩ := hC
          subst hC1
          subst hC2
          have hfs : fsWeight xp y xp (y + 1) = 5 := by
            unfold fsWeight
            rw [if_neg (by omega), if_neg (by omega), if_pos ⟨rfl, rfl⟩]
          rw [hfs,
            guard_term_zero (xp + 1 < w) (errR * 7 * (factor / 16))
              (errG * 7 * (factor / 16)) (errB * 7 * (factor / 16))
              (((y + 1) * w + xp) * 3 + ch) ((y * w + xp) * 3 + 3)
              (fun hg => ⟨by omega, by omega, by omega⟩),
            guard_term_zero (y + 1 < h ∧ 0 < xp) (errR * 3 * (factor / 16))
              (errG * 3 * (factor / 16)) (errB * 3 * (factor / 16))
              (((y + 1) * w + xp) * 3 + ch) ((y * w + xp) * 3 + w * 3 - 3)
              (fun hg => ⟨by omega, by omega, by omega⟩),
            guard_term_hit (y + 1 < h) (errR * 5 * (factor / 16)) (errG * 5 * (factor / 16))
              (errB * 5 * (factor / 16)) (((y + 1) * w + xp) * 3 + ch)
              ((y * w + xp) * 3 + w * 3) ch hyp hch (by omega),
            guard_term_zero (y + 1 < h ∧ xp + 1 < w) (errR * 1 * (factor / 16))
              (errG * 1 * (factor / 16)) (errB * 1 * (factor / 16))
              (((y + 1) * w + xp) * 3 + ch) ((y * w + xp) * 3 + w * 3 + 3)
              (fun hg => ⟨by omega, by omega, by omega⟩),
            chErr_scale errR errG errB 5 (factor / 16) ch hch]
          ring
        · by_cases hD : yp = y + 1 ∧ xp = x + 1
          · obtain ⟨hD1, hD2⟩ := hD
            subst hD1
            subst hD2
            have hfs : fsWeight x y (x + 1) (y + 1) = 1 := by
              unfold fsWeight
              rw [if_neg (by omega), if_neg (by omega), if_neg (by omega),
                if_pos ⟨rfl, rfl⟩]
            rw [hfs,
              guard_term_zero (x + 1 < w) (errR * 7 * (factor / 16))
                (errG * 7 * (factor / 16)) (errB * 7 * (factor / 16))
                (((y + 1) * w + (x + 1)) * 3 + ch) ((y * w + x) * 3 + 3)
                (fun hg => ⟨by omega, by omega, by omega⟩),
              guard_term_zero (y + 1 < h ∧ 0 < x) (errR * 3 * (factor / 16))
                (errG * 3 * (factor / 16)) (errB * 3 * (factor / 16))
                (((y + 1) * w + (x + 1)) * 3 + ch) ((y * w + x) * 3 + w * 3 - 3)
                (fun hg => ⟨by omega, by omega, by omega⟩),
              guard_term_zero (y + 1 < h) (errR * 5 * (factor / 16))
                (errG * 5 * (factor / 16)) (errB * 5 * (factor / 16))
                (((y + 1) * w + (x + 1)) * 3 + ch) ((y * w + x) * 3 + w * 3)
                (fun hg => ⟨by omega, by omega, by omega⟩),
              guard_term_hit (y + 1 < h ∧ x + 1 < w) (errR * 1 * (factor / 16))
                (errG * 1 * (factor / 16)) (errB * 1 * (factor / 16))
                (((y + 1) * w + (x + 1)) * 3 + ch) ((y * w + x) * 3 + w * 3 + 3)
                ch ⟨hyp, hxp⟩ hch (by omega),
              chErr_scale errR errG errB 1 (factor / 16) ch hch]
            ring
          · have hfs : fsWeight x y xp yp = 0 := by
              unfold fsWeight
              rw [if_neg hA, if_neg hB, if_neg hC, if_neg hD]
            rw [hfs,
              guard_term_zero (x + 1 < w) (errR * 7 * (factor / 16))
                (errG * 7 * (factor / 16)) (errB * 7 * (factor / 16))
                ((yp * w + xp) * 3 + ch) ((y * w + x) * 3 + 3)
                (fun hg => ⟨
                  fun hEq => rowMajor3_ne w xp yp (x + 1) y ch 0 hxp hg hch
                    (by norm_num) hA (by omega),
                  fun hEq => rowMajor3_ne w xp yp (x + 1) y ch 1 hxp hg hch
                    (by norm_num) hA (by omega),
                  fun hEq => rowMajor3_ne w xp yp (x + 1) y ch 2 hxp hg hch
                    (by norm_num) hA (by omega)⟩),
              guard_term_zero (y + 1 < h ∧ 0 < x) (errR * 3 * (factor / 16))
                (errG * 3 * (factor / 16)) (errB * 3 * (factor / 16))
                ((yp * w + xp) * 3 + ch) ((y * w + x) * 3 + w * 3 - 3)
                (fun hg => ⟨
                  fun hEq => rowMajor3_ne w xp yp (x - 1) (y + 1) ch 0 hxp (by omega) hch
                    (by norm_num) (fun hc => hB ⟨hc.1, by omega⟩) (by omega),
                  fun hEq => rowMajor3_ne w xp yp (x - 1) (y + 1) ch 1 hxp (by omega) hch
                    (by norm_num) (fun hc => hB ⟨hc.1, by omega⟩) (by omega),
                  fun hEq => rowMajor3_ne w xp yp (x - 1) (y + 1) ch 2 hxp (by omega) hch
                    (by norm_num) (fun hc => hB ⟨hc.1, by omega⟩) (by omega)⟩),
              guard_term_zero (y + 1 < h) (errR * 5 * (factor / 16))
                (errG * 5 * (factor / 16)) (errB * 5 * (factor / 16))
                ((yp * w + xp) * 3 + ch) ((y * w + x) * 3 + w * 3)
                (fun hg => ⟨
                  fun hEq => rowMajor3_ne w xp yp x (y + 1) ch 0 hxp hx hch
                    (by norm_num) hC (by omega),
                  fun hEq => rowMajor3_ne w xp yp x (y + 1) ch 1 hxp hx hch
                    (by norm_num) hC (by omega),
                  fun hEq => rowMajor3_ne w xp yp x (y + 1) ch 2 hxp hx hch
                    (by norm_num) hC (by omega)⟩),
              guard_term_zero (y + 1 < h ∧ x + 1 < w) (errR * 1 * (factor / 16))
                (errG * 1 * (factor / 16)) (errB * 1 * (factor / 16))
                ((yp * w + xp) * 3 + ch) ((y * w + x) * 3 + w * 3 + 3)
                (fun hg => ⟨
                  fun hEq => rowMajor3_ne w xp yp (x + 1) (y + 1) ch 0 hxp hg.2 hch
                    (by norm_num) hD (by omega),
                  fun hEq => rowMajor3_ne w xp yp (x + 1) (y + 1) ch 1 hxp hg.2 hch
                    (by norm_num) hD (by omega),
                  fun hEq => rowMajor3_ne w xp yp (x + 1) (y + 1) ch 2 hxp hg.2 hch
                    (by norm_num) hD (by omega)⟩)]
            ring
  · rw [diffuseBW_eval]
    by_cases hA : yp = y ∧ xp = x + 1
    · obtain ⟨hA1, hA2⟩ := hA
      subst hA1
      subst hA2
      have hfs : fsWeight x yp (x + 1) yp = 7 := by
        unfold fsWeight
        rw [if_pos ⟨rfl, rfl⟩]
      rw [hfs,
        guard1_hit (x + 1 < w) (e * factor / 16 * 7) (yp * w + (x + 1)) (yp * w + x + 1)
          hxp (by omega),
        bw_mid_zero (yp + 1 < h) (0 < x) (x + 1 < w) (e * factor / 16 * 3)
          (e * factor / 16 * 5) (e * factor / 16 * 1) (yp * w + (x + 1))
          (yp * w + x + w - 1) (yp * w + x + w) (yp * w + x + w + 1)
          (fun hQ => ⟨fun hR => by omega, by omega, fun hS => by omega⟩)]
      ring
    · by_cases hB : yp = y + 1 ∧ xp + 1 = x
      · obtain ⟨hB1, hB2⟩ := hB
        subst hB1
        subst hB2
        have hfs : fsWeight (xp + 1) y xp (y + 1) = 3 := by
          unfold fsWeight
          rw [if_neg (by omega), if_pos ⟨rfl, rfl⟩]
        rw [hfs,
          guard1_zero (xp + 1 + 1 < w) (e * factor / 16 * 7) ((y + 1) * w + xp)
            (y * w + (xp + 1) + 1) (fun hg => by omega),
          bw_mid_hit_left (y + 1 < h) (0 < xp + 1) (xp + 1 + 1 < w) (e * factor / 16 * 3)
            (e * factor / 16 * 5) (e * factor / 16 * 1) ((y + 1) * w + xp)
            (y * w + (xp + 1) + w - 1) (y * w + (xp + 1) + w) (y * w + (xp + 1) + w + 1)
            hyp (by omega) (by omega) (by omega) (fun hS => by omega)]
        ring
      · by_cases hC : yp = y + 1 ∧ xp = x
        · obtain ⟨hC1, hC2⟩ := hC
          subst hC1
          subst hC2
          have hfs : fsWeight xp y xp (y + 1) = 5 := by
            unfold fsWeight
            rw [if_neg (by omega), if_neg (by omega), if_pos ⟨rfl, rfl⟩]
          rw [hfs,
            guard1_zero (xp + 1 < w) (e * factor / 16 * 7) ((y + 1) * w + xp)
              (y * w + xp + 1) (fun hg => by omega),
            bw_mid_hit_mid (y + 1 < h) (0 < xp) (xp + 1 < w) (e * factor / 16 * 3)
              (e * factor / 16 * 5) (e * factor / 16 * 1) ((y + 1) * w + xp)
              (y * w + xp + w - 1) (y * w + xp + w) (y * w + xp + w + 1)
              hyp (fun hR => by omega) (by omega) (fun hS => by omega)]
          ring
        · by_cases hD : yp = y + 1 ∧ xp = x + 1
          · obtain ⟨hD1, hD2⟩ := hD
            subst hD1
            subst hD2
            have hfs : fsWeight x y (x + 1) (y + 1) = 1 := by
              unfold fsWeight
              rw [if_neg (by omega), if_neg (by omega), if_neg (by omega),
                if_pos ⟨rfl, rfl⟩]
            rw [hfs,
              guard1_zero (x + 1 < w) (e * factor / 16 * 7) ((y + 1) * w + (x + 1))
                (y * w + x + 1) (fun hg => by omega),
              bw_mid_hit_right (y + 1 < h) (0 < x) (x + 1 < w) (e * factor / 16 * 3)
                (e * factor / 16 * 5) (e * factor / 16 * 1) ((y + 1) * w + (x + 1))
                (y * w + x + w - 1) (y * w + x + w) (y * w + x + w + 1)
                hyp hxp (fun hR => by omega) (by omega) (by omega)]
            ring
          · have hfs : fsWeight x y xp yp = 0 := by
              unfold fsWeight
              rw [if_neg hA, if_neg hB, if_neg hC, if_neg hD]
            rw [hfs,
              guard1_zero (x + 1 < w) (e * factor / 16 * 7) (yp * w + xp)
                (y * w + x + 1)
                (fun hg hEq => rowMajor_ne w xp yp (x + 1) y hxp hg hA (by omega)),
              bw_mid_zero (y + 1 < h) (0 < x) (x + 1 < w) (e * factor / 16 * 3)
                (e * factor / 16 * 5) (e * factor / 16 * 1) (yp * w + xp)
                (y * w + x + w - 1) (y * w + x + w) (y * w + x + w + 1)
                (fun hQ => ⟨
                  fun hR hEq => rowMajor_ne w xp yp (x - 1) (y + 1) hxp (by omega)
                    (fun hc => hB ⟨hc.1, by omega⟩) (by omega),
                  fun hEq => rowMajor_ne w xp yp x (y + 1) hxp hx hC (by omega),
                  fun hS hEq => rowMajor_ne w xp yp (x + 1) (y + 1) hxp hS hD
                    (by omega)⟩)]
            ring

/-- Witness for C1 on a 2x2 grid: the right neighbor of (0, 0). -/
theorem dithering_error_diffusion_witness :
    (0 : ℕ) < 2 ∧
    diffuseColor 2 2 1 (fun _ => 0) 0 0 16 16 16 ((0 * 2 + 1) * 3 + 0) =
      (fun _ => (0 : ℚ)) ((0 * 2 + 1) * 3 + 0) +
        chErr 16 16 16 0 * fsWeight 0 0 1 0 * (1 / 16) := by
  refine ⟨by norm_num, ?_⟩
  exact (dithering_error_diffusion 2 2 0 0 1 0 (by norm_num) (by norm_num)
    (by norm_num) (by norm_num) 1 16 16 16 0 (fun _ => 0) (fun _ => 0)).1 0 (by norm_num)

/-! ## C6 and C9: full palette-dithering runs -/

lemma pixel_index_lt {w h x y : ℕ} (hx : x < w) (hy : y < h) : y * w + x < w * h := by
  have h2 : (y + 1) * w = y * w + w := by ring
  have h1 : (y + 1) * w ≤ h * w := Nat.mul_le_mul_right w hy
  have h3 : h * w = w * h := by ring
  omega

lemma mem_rasterPositions {w h x y : ℕ} :
    (x, y) ∈ rasterPositions w h ↔ x < w ∧ y < h := by
  simp only [rasterPositions, List.mem_flatMap, List.mem_map, List.mem_range,
    Prod.mk.injEq]
  constructor
  · rintro ⟨a, ha, b, hb, hbx, hay⟩
    subst hbx
    subst hay
    exact ⟨hb, ha⟩
  · rintro ⟨hx, hy⟩
    exact ⟨y, hy, x, hx, rfl, rfl⟩

lemma initPixelData_apply (d : ℕ → ℕ) (w h x y c : ℕ) (hx : x < w) (hy : y < h)
    (hc : c < 3) :
    initPixelData d w h ((y * w + x) * 3 + c) = (d ((y * w + x) * 4 + c) : ℚ) := by
  unfold initPixelData
  have hq : y * w + x < w * h := pixel_index_lt hx hy
  rw [if_pos (by omega)]
  have hdiv : ((y * w + x) * 3 + c) / 3 = y * w + x := by omega
  have hmod : ((y * w + x) * 3 + c) % 3 = c := by omega
  rw [hdiv, hmod]

lemma diffuseColor_zero (w h : ℕ) (factor : ℚ) (pd : ℕ → ℚ) (x y : ℕ) :
    diffuseColor w h factor pd x y 0 0 0 = pd := by
  simp only [diffuseColor, zero_mul, addAt3, addAt_zero, ite_self]

lemma findClosestColor_self_of_mem {c : Color} {palette : List Color}
    (hmem : c ∈ palette) : findClosestColor c palette = c := by
  cases palette with
  | nil => cases hmem
  | cons p0 rest => exact findClosestColor_self hmem

lemma findClosestColor_mem_of_ne_nil (c : Color) {palette : List Color}
    (hne : palette ≠ []) : findClosestColor c palette ∈ palette := by
  cases palette with
  | nil => exact absurd rfl hne
  | cons p0 rest => exact findClosestColor_mem c p0 rest

lemma ditherColorStep_uniform (w h : ℕ) (palette : List Color) (factor : ℚ)
    (r g b : ℕ) (hr : r ≤ 255) (hg : g ≤ 255) (hb : b ≤ 255)
    (hmem : ((r : ℚ), (g : ℚ), (b : ℚ)) ∈ palette)
    (st : (ℕ → ℕ) × (ℕ → ℚ)) (px py : ℕ)
    (h0 : st.2 ((py * w + px) * 3) = (r : ℚ))
    (h1 : st.2 ((py * w + px) * 3 + 1) = (g : ℚ))
    (h2 : st.2 ((py * w + px) * 3 + 2) = (b : ℚ)) :
    ditherColorStep w h palette factor st (px, py) =
      (write3n st.1 ((py * w + px) * 4) r g b, st.2) := by
  simp only [ditherColorStep]
  rw [h0, h1, h2, findClosestColor_self_of_mem hmem]
  simp only [u8clamp_natCast hr, u8clamp_natCast hg, u8clamp_natCast hb, sub_self,
    diffuseColor_zero]

lemma ditherColor_fold_uniform (w h : ℕ) (r g b : ℕ) (palette : List Color)
    (hr : r ≤ 255) (hg : g ≤ 255) (hb : b ≤ 255)
    (hmem : ((r : ℚ), (g : ℚ), (b : ℚ)) ∈ palette) (factor : ℚ) :
    ∀ (L : List (ℕ × ℕ)), (∀ p ∈ L, p.1 < w ∧ p.2 < h) →
    ∀ (st : (ℕ → ℕ) × (ℕ → ℚ)),
      (∀ i, i < w * h → st.1 (i * 4) = r ∧ st.1 (i * 4 + 1) = g ∧ st.1 (i * 4 + 2) = b) →
      (∀ x y c, x < w → y < h → c < 3 →
        st.2 ((y * w + x) * 3 + c) = ((if c = 0 then r else if c = 1 then g else b : ℕ) : ℚ)) →
      (∀ i, i < w * h →
        (L.foldl (ditherColorStep w h palette factor) st).1 (i * 4) = r ∧
        (L.foldl (ditherColorStep w h palette factor) st).1 (i * 4 + 1) = g ∧
        (L.foldl (ditherColorStep w h palette factor) st).1 (i * 4 + 2) = b) ∧
      (∀ x y c, x < w → y < h → c < 3 →
        (L.foldl (ditherColorStep w h palette factor) st).2 ((y * w + x) * 3 + c) =
          ((if c = 0 then r else if c = 1 then g else b : ℕ) : ℚ)) := by
  intro L
  induction L with
  | nil =>
      intro _ st hs1 hs2
      exact ⟨hs1, hs2⟩
  | cons p L ih =>
      intro hL st hs1 hs2
      rcases p with ⟨px, py⟩
      obtain ⟨hpx, hpy⟩ := hL (px, py) (List.mem_cons_self _ _)
      rw [List.foldl_cons]
      have hstep := ditherColorStep_uniform w h palette factor r g b hr hg hb hmem st px py
        (by simpa using hs2 px py 0 hpx hpy (by norm_num))
        (by simpa using hs2 px py 1 hpx hpy (by norm_num))
        (by simpa using hs2 px py 2 hpx hpy (by norm_num))
      rw [hstep]
      apply ih (fun q hq => hL q (List.mem_cons_of_mem _ hq))
      · intro i hi
        dsimp only
        by_cases hiq : i = py * w + px
        · subst hiq
          refine ⟨?_, ?_, ?_⟩
          · rw [write3n_apply, if_neg (by omega), if_neg (by omega), if_pos (by omega)]
          · rw [write3n_apply, if_neg (by omega), if_pos (by omega)]
          · rw [write3n_apply, if_pos (by omega)]
        · obtain ⟨e0, e1, e2⟩ := hs1 i hi
          refine ⟨?_, ?_, ?_⟩
          · rw [write3n_apply, if_neg (by omega), if_neg (by omega), if_neg (by omega)]
            exact e0
          · rw [write3n_apply, if_neg (by omega), if_neg (by omega), if_neg (by omega)]
            exact e1
          · rw [write3n_apply, if_neg (by omega), if_neg (by omega), if_neg (by omega)]
            exact e2
      · exact hs2

/-- C6: applying the palette-dithering routine to a buffer whose every pixel
carries one single uniform RGB color that is an exact member of the palette
yields that color at every pixel (the quantization error is zero everywhere,
so no error is ever diffused). -/
theorem dithering_uniform_color_fixed (d : ℕ → ℕ) (w h r g b : ℕ)
    (palette : List Color) (factor : ℚ)
    (hr : r ≤ 255) (hg : g ≤ 255) (hb : b ≤ 255)
    (hmem : ((r : ℚ), (g : ℚ), (b : ℚ)) ∈ palette)
    (hd : ∀ i, i < w * h → d (i * 4) = r ∧ d (i * 4 + 1) = g ∧ d (i * 4 + 2) = b) :
    ∀ i, i < w * h →
      applyDitheringColor d w h palette factor (i * 4) = r ∧
      applyDitheringColor d w h palette factor (i * 4 + 1) = g ∧
      applyDitheringColor d w h palette factor (i * 4 + 2) = b := by
  intro i hi
  have hfold := ditherColor_fold_uniform w h r g b palette hr hg hb hmem factor
    (rasterPositions w h)
    (fun q hq => by
      rcases q with ⟨qx, qy⟩
      exact mem_rasterPositions.mp hq)
    (d, initPixelData d w h) hd
    (fun x y c hx hy hc => by
      have hip := initPixelData_apply d w h x y c hx hy hc
      have hiq : y * w + x < w * h := pixel_index_lt hx hy
      obtain ⟨e0, e1, e2⟩ := hd (y * w + x) hiq
      interval_cases c
      · simp only [hip]
        rw [show (y * w + x) * 4 + 0 = (y * w + x) * 4 by omega, e0]
        norm_num
      · simp only [hip, e1]
        norm_num
      · simp only [hip, e2]
        norm_num)
  exact hfold.1 i hi

/-- Witness for C6: a 2x2 buffer uniformly holding the first JUSTICE_PALETTE
color (13, 33, 108). -/
theorem dithering_uniform_color_fixed_witness :
    (((13 : ℚ), (33 : ℚ), (108 : ℚ)) ∈ JUSTICE_PALETTE.map natColor) ∧
    (∀ i, i < 2 * 2 → justiceBuffer (i * 4) = 13 ∧ justiceBuffer (i * 4 + 1) = 33 ∧
      justiceBuffer (i * 4 + 2) = 108) ∧
    applyDitheringColor justiceBuffer 2 2 (JUSTICE_PALETTE.map natColor) 1 0 = 13 := by
  have hmem : (((13 : ℚ), (33 : ℚ), (108 : ℚ)) ∈ JUSTICE_PALETTE.map natColor) := by
    simp [JUSTICE_PALETTE, natColor]
  have hd : ∀ i, i < 2 * 2 → justiceBuffer (i * 4) = 13 ∧
      justiceBuffer (i * 4 + 1) = 33 ∧ justiceBuffer (i * 4 + 2) = 108 := by decide
  refine ⟨hmem, hd, ?_⟩
  have h := dithering_uniform_color_fixed justiceBuffer 2 2 13 33 108
    (JUSTICE_PALETTE.map natColor) 1 (by norm_num) (by norm_num) (by norm_num)
    hmem hd 0 (by norm_num)
  simpa using h.1

lemma ditherColor_fold_palette (w h : ℕ) (palette : List Color) (factor : ℚ)
    (hne : palette ≠ []) :
    ∀ (L : List (ℕ × ℕ)) (st : (ℕ → ℕ) × (ℕ → ℚ)) (P : ℕ × ℕ → Prop),
      (∀ q, P q →
        ∃ col ∈ palette,
          st.1 ((q.2 * w + q.1) * 4) = u8clamp col.1 ∧
          st.1 ((q.2 * w + q.1) * 4 + 1) = u8clamp col.2.1 ∧
          st.1 ((q.2 * w + q.1) * 4 + 2) = u8clamp col.2.2) →
      ∀ q, (P q ∨ q ∈ L) →
        ∃ col ∈ palette,
          (L.foldl (ditherColorStep w h palette factor) st).1 ((q.2 * w + q.1) * 4) =
            u8clamp col.1 ∧
          (L.foldl (ditherColorStep w h palette factor) st).1 ((q.2 * w + q.1) * 4 + 1) =
            u8clamp col.2.1 ∧
          (L.foldl (ditherColorStep w h palette factor) st).1 ((q.2 * w + q.1) * 4 + 2) =
            u8clamp col.2.2 := by
  intro L
  induction L with
  | nil =>
      intro st P hP q hq
      rcases hq with hq | hq
      · exact hP q hq
      · cases hq
  | cons p L ih =>
      intro st P hP q hq
      rcases p with ⟨px, py⟩
      rw [List.foldl_cons]
      have hbase : ∀ q2, (P q2 ∨ q2 = (px, py)) →
          ∃ col ∈ palette,
            (ditherColorStep w h palette factor st (px, py)).1 ((q2.2 * w + q2.1) * 4) =
              u8clamp col.1 ∧
            (ditherColorStep w h palette factor st (px, py)).1 ((q2.2 * w + q2.1) * 4 + 1) =
              u8clamp col.2.1 ∧
            (ditherColorStep w h palette factor st (px, py)).1 ((q2.2 * w + q2.1) * 4 + 2) =
              u8clamp col.2.2 := by
        have hstep : (ditherColorStep w h palette factor st (px, py)).1 =
            write3n st.1 ((py * w + px) * 4)
              (u8clamp (findClosestColor (st.2 ((py * w + px) * 3),
                st.2 ((py * w + px) * 3 + 1), st.2 ((py * w + px) * 3 + 2)) palette).1)
              (u8clamp (findClosestColor (st.2 ((py * w + px) * 3),
                st.2 ((py * w + px) * 3 + 1), st.2 ((py * w + px) * 3 + 2)) palette).2.1)
              (u8clamp (findClosestColor (st.2 ((py * w + px) * 3),
                st.2 ((py * w + px) * 3 + 1), st.2 ((py * w + px) * 3 + 2)) palette).2.2) := rfl
        have hncmem := findClosestColor_mem_of_ne_nil
          (st.2 ((py * w + px) * 3), st.2 ((py * w + px) * 3 + 1),
            st.2 ((py * w + px) * 3 + 2)) hne
        intro q2 hq2
        rw [hstep]
        rcases hq2 with hq2 | hq2
        · obtain ⟨col, hcol, e0, e1, e2⟩ := hP q2 hq2
          by_cases hflat : q2.2 * w + q2.1 = py * w + px
          · refine ⟨_, hncmem, ?_, ?_, ?_⟩
            · rw [hflat, write3n_apply, if_neg (by omega), if_neg (by omega),
                if_pos (by omega)]
            · rw [hflat, write3n_apply, if_neg (by omega), if_pos (by omega)]
            · rw [hflat, write3n_apply, if_pos (by omega)]
          · refine ⟨col, hcol, ?_, ?_, ?_⟩
            · rw [write3n_apply, if_neg (by omega), if_neg (by omega), if_neg (by omega)]
              exact e0
            · rw [write3n_apply, if_neg (by omega), if_neg (by omega), if_neg (by omega)]
              exact e1
            · rw [write3n_apply, if_neg (by omega), if_neg (by omega), if_neg (by omega)]
              exact e2
        · subst hq2
          dsimp only
          refine ⟨_, hncmem, ?_, ?_, ?_⟩
          · rw [write3n_apply, if_neg (by omega), if_neg (by omega), if_pos (by omega)]
          · rw [write3n_apply, if_neg (by omega), if_pos (by omega)]
          · rw [write3n_apply, if_pos (by omega)]
      refine ih (ditherColorStep w h palette factor st (px, py))
        (fun q2 => P q2 ∨ q2 = (px, py)) hbase q ?_
      rcases hq with hq | hq
      · exact Or.inl (Or.inl hq)
      · rcases List.mem_cons.mp hq with hq | hq
        · exact Or.inl (Or.inr hq)
        · exact Or.inr hq

/-- C9: findClosestColor always returns a member of a non-empty palette, and
consequently after the palette-dithering effect runs, every pixel of the
output buffer holds the RGB triple of a palette entry. -/
theorem dithering_output_in_palette :
    (∀ (color : Color) (palette : List Color), palette ≠ [] →
      findClosestColor color palette ∈ palette) ∧
    (∀ (d : ℕ → ℕ) (w h : ℕ) (paletteN : List (ℕ × ℕ × ℕ)) (factor : ℚ),
      paletteN ≠ [] →
      (∀ p ∈ paletteN, p.1 ≤ 255 ∧ p.2.1 ≤ 255 ∧ p.2.2 ≤ 255) →
      ∀ x y, x < w → y < h →
        ∃ p ∈ paletteN,
          applyDitheringColor d w h (paletteN.map natColor) factor ((y * w + x) * 4) =
            p.1 ∧
          applyDitheringColor d w h (paletteN.map natColor) factor ((y * w + x) * 4 + 1) =
            p.2.1 ∧
          applyDitheringColor d w h (paletteN.map natColor) factor ((y * w + x) * 4 + 2) =
            p.2.2) := by
  constructor
  · intro color palette hne
    exact findClosestColor_mem_of_ne_nil color hne
  · intro d w h paletteN factor hne hbound x y hx hy
    have hneQ : paletteN.map natColor ≠ [] := by
      simpa using hne
    have hout := ditherColor_fold_palette w h (paletteN.map natColor) factor hneQ
      (rasterPositions w h) (d, initPixelData d w h) (fun _ => False)
      (fun q hq => absurd hq not_false)
      (x, y) (Or.inr (mem_rasterPositions.mpr ⟨hx, hy⟩))
    dsimp only at hout
    obtain ⟨col, hcol, e0, e1, e2⟩ := hout
    obtain ⟨p, hp, hpc⟩ := List.mem_map.mp hcol
    obtain ⟨h1, h2, h3⟩ := hbound p hp
    rw [← hpc] at e0 e1 e2
    simp only [natColor] at e0 e1 e2
    rw [u8clamp_natCast h1] at e0
    rw [u8clamp_natCast h2] at e1
    rw [u8clamp_natCast h3] at e2
    exact ⟨p, hp, e0, e1, e2⟩

/-- Witness for C9 with the JUSTICE_PALETTE on a one-pixel black buffer. -/
theorem dithering_output_in_palette_witness :
    JUSTICE_PALETTE ≠ [] ∧
    (∀ p ∈ JUSTICE_PALETTE, p.1 ≤ 255 ∧ p.2.1 ≤ 255 ∧ p.2.2 ≤ 255) ∧
    ∃ p ∈ JUSTICE_PALETTE,
      applyDitheringColor blackBuffer 1 1 (JUSTICE_PALETTE.map natColor) 1
        ((0 * 1 + 0) * 4) = p.1 ∧
      applyDitheringColor blackBuffer 1 1 (JUSTICE_PALETTE.map natColor) 1
        ((0 * 1 + 0) * 4 + 1) = p.2.1 ∧
      applyDitheringColor blackBuffer 1 1 (JUSTICE_PALETTE.map natColor) 1
        ((0 * 1 + 0) * 4 + 2) = p.2.2 := by
  refine ⟨by simp [JUSTICE_PALETTE], by decide, ?_⟩
  exact (dithering_output_in_palette).2 blackBuffer 1 1 JUSTICE_PALETTE 1
    (by simp [JUSTICE_PALETTE]) (by decide) 0 0 (by norm_num) (by norm_num)

/-! ## C4: CRT modulation at zero amplitude, aberration and scanline opacity -/

lemma getPixel_crtTest_zero : getPixel crtTestBuffer 1 0 0 = (10, 20, 30) := by
  simp only [getPixel, jsRound, readZ]
  norm_num [crtTestBuffer]
  decide

/-- C4 (evidence of the code slip): on the one-pixel buffer (10, 20, 30, 255),
the CRT processor with amplitude 0, aberration 0 and scanline opacity 0
outputs (10, 10, 10, 255), not the source pixel: the `const [g]` and
`const [b]` destructurings of the source bind the FIRST component of the
triple returned by getPixel, so the red channel is copied into all three
output channels, while the source green and blue channels are 20 and 30. -/
theorem crt_zero_params_copies_red_channel :
    crtProcessor (fun _ => 0) crtTestBuffer 1 1 0 (1 / 10) 0 0 0 = 10 ∧
    crtProcessor (fun _ => 0) crtTestBuffer 1 1 0 (1 / 10) 0 0 1 = 10 ∧
    crtProcessor (fun _ => 0) crtTestBuffer 1 1 0 (1 / 10) 0 0 2 = 10 ∧
    crtProcessor (fun _ => 0) crtTestBuffer 1 1 0 (1 / 10) 0 0 3 = 255 ∧
    crtTestBuffer 1 = 20 ∧ crtTestBuffer 2 = 30 := by
  have hbody : crtProcessor (fun _ => 0) crtTestBuffer 1 1 0 (1 / 10) 0 0 =
      write4n (fun _ => 0) 0 10 10 10 255 := by
    unfold crtProcessor
    rw [if_neg (by norm_num)]
    have hr1 : List.range 1 = [0] := rfl
    rw [hr1]
    simp only [List.foldl_cons, List.foldl_nil]
    norm_num [getPixel_crtTest_zero]
  rw [hbody]
  refine ⟨?_, ?_, ?_, ?_, rfl, rfl⟩ <;> simp [write4n, updN]

end PixelFX
